import Mathlib

/-!
Verification development for the cloud-radar-server repository.

Shallow embedding of:
* `times.py` (`make_simulation_times`),
* `placefiles.py` (`shift_placefiles`, `shift_time`, `move_point`),
* `processing.py` (the pipeline stage functions and their status-marker writes),
* `app.py` (`run_scripts`, `coordinate_processing_scripts`, `manage_clock_`,
  `initiate_playback`'s status write, `generate_layout`'s status write).

Datetimes are modelled as natural numbers of seconds since 0001-01-01T00:00:00
(the smallest instant representable by Python's `datetime`), on the proleptic
Gregorian calendar, which is exactly `datetime`'s calendar.  The calendar
conversion functions below model the stdlib `datetime` semantics used by
`datetime.strptime` / `strftime` / `timedelta` addition in `placefiles.py`.
Arithmetic that Python performs on `datetime` objects is exact integer
arithmetic here; `datetime`'s year range 1..9999 is modelled by `shiftDT`,
which produces `PyErr.overflowError` exactly when Python raises
`OverflowError` from `dt + timedelta(...)`.
-/

/-- Python exception classes relevant to `placefiles.py`.  `shift_placefiles`
catches `IOError`, `ValueError` and `KeyError`; `IndexError` (from `regex[i]`
on a too-short match list) and `OverflowError` (from `dt + timedelta` leaving
the representable year range) propagate out of it. -/
inductive PyErr where
  | ioError
  | valueError
  | keyError
  | indexError
  | overflowError
deriving DecidableEq, Repr

/-- Day-of-era (era = 400 Gregorian years counted from March 1) on which
year-of-era `y` starts; valid for `y ≤ 399`.  365 days per year plus a leap
day every 4th year except every 100th.  (The era's own 400-year leap day is
accounted for by the era length 146097.) -/
def yearStartN (y : Nat) : Nat := 365 * y + y / 4 - y / 100

/-- Day-of-year (counted from March 1) on which shifted month `mp` starts,
`mp = 0` meaning March.  Month lengths from March are
31 30 31 30 31 31 30 31 30 31 31 28/29. -/
def monthStartN (mp : Nat) : Nat := (153 * mp + 2) / 5

/-- Year-of-era containing day-of-era `doe`: the unique `y ≤ 399` with
`yearStartN y ≤ doe < yearStartN (y+1)` (capped at 399 for the era's final
leap day), computed by a first approximation `doe / 365` corrected downward. -/
def yoeOf (doe : Nat) : Nat :=
  let ya := doe / 365
  let y0 := if doe < yearStartN ya then ya - 1 else ya
  if y0 ≤ 399 then y0 else 399

/-- Shifted month (0 = March) containing day-of-year `doy`, computed by a
first approximation `doy / 30` corrected downward. -/
def mpOf (doy : Nat) : Nat :=
  let ma := doy / 30
  if doy < monthStartN ma then ma - 1 else ma

/-- Day-of-year (March-based) of day number `n`. -/
def doyOfN (n : Nat) : Nat := n % 146097 - yearStartN (yoeOf (n % 146097))

/-- Shifted month of day number `n`. -/
def mpOfN (n : Nat) : Nat := mpOf (doyOfN n)

/-- Civil year of day number `n` (counted from 0000-03-01): January and
February belong to the next civil year. -/
def civilY (n : Nat) : Nat :=
  if mpOfN n < 10 then n / 146097 * 400 + yoeOf (n % 146097)
  else n / 146097 * 400 + yoeOf (n % 146097) + 1

/-- Civil month of day number `n`. -/
def civilM (n : Nat) : Nat := if mpOfN n < 10 then mpOfN n + 3 else mpOfN n - 9

/-- Civil day-of-month of day number `n`. -/
def civilD (n : Nat) : Nat := doyOfN n - monthStartN (mpOfN n) + 1

/-- Convert a day number counted from 0000-03-01 to a proleptic-Gregorian
civil date (year, month, day). -/
def civilFromDaysN (n : Nat) : Nat × Nat × Nat := (civilY n, civilM n, civilD n)

/-- Convert a proleptic-Gregorian civil date to its day number counted from
0000-03-01 (total for `1 ≤ y`, `1 ≤ m ≤ 12`). -/
def daysFromCivilN (y m d : Nat) : Nat :=
  let ys := if m ≤ 2 then y - 1 else y
  let mp := if m ≤ 2 then m + 9 else m - 3
  ys / 400 * 146097 + yearStartN (ys % 400) + monthStartN mp + (d - 1)

/-- Gregorian leap-year predicate, as implemented by Python's `calendar` and
used by `datetime` validation. -/
def isLeapN (y : Nat) : Bool := (y % 4 = 0 && y % 100 ≠ 0) || y % 400 = 0

/-- Length of month `m` of year `y`, as validated by `datetime`. -/
def daysInMonthN (y m : Nat) : Nat :=
  if m = 2 then (if isLeapN y then 29 else 28)
  else if m = 4 ∨ m = 6 ∨ m = 9 ∨ m = 11 then 30
  else 31

/-- Day number of a civil date counted from 0001-01-01 (which is day 306 of
the 0000-03-01 reckoning); this is `datetime.toordinal() - 1`. -/
def dayNumOfCivil (y m d : Nat) : Nat := daysFromCivilN y m d - 306

/-- Epoch seconds (since 0001-01-01T00:00:00) of a civil date-time. -/
def epochOf (y mo d h mi s : Nat) : Nat :=
  dayNumOfCivil y mo d * 86400 + h * 3600 + mi * 60 + s

/-- Largest epoch second representable by Python's `datetime`
(9999-12-31T23:59:59). -/
def maxEpochN : Nat := dayNumOfCivil 9999 12 31 * 86400 + 86399

/-- Civil year containing epoch second `t`. -/
def yearOfEpoch (t : Nat) : Nat := (civilFromDaysN (t / 86400 + 306)).1

/-- Model of `dt + timedelta(seconds=S)` from `shift_time`: Python raises
`OverflowError` when the result leaves the year range 1..9999. -/
def shiftDT (t : Nat) (S : Int) : Except PyErr Nat :=
  let r : Int := (t : Int) + S
  if 0 ≤ r ∧ r ≤ (maxEpochN : Int) then .ok r.toNat else .error .overflowError

/-- Digit character for `k % 10`. -/
def dCh (k : Nat) : Char := Char.ofNat (48 + k % 10)

/-- Numeric value of a digit character. -/
def dVal (c : Char) : Nat := c.toNat - 48

/-- Two-digit zero-padded rendering, as produced by `strftime` field
specifiers such as `%m`, `%d`, `%H`, `%M`, `%S`. -/
def pad2 (n : Nat) : List Char := [dCh (n / 10), dCh n]

/-- Four-digit zero-padded rendering of a year, as produced by `strftime`'s
`%Y` for years 1000..9999 (the only years the theorems below quantify over;
Linux `strftime` does not zero-pad years below 1000, which is why the
round-trip statements carry a year lower bound of 1000). -/
def pad4 (n : Nat) : List Char := [dCh (n / 1000), dCh (n / 100), dCh (n / 10), dCh n]

/-- Rendering of `strftime('%Y-%m-%dT%H:%M:%SZ')` on the datetime at epoch
second `t` (faithful to CPython for years 1000..9999). -/
def renderISO (t : Nat) : List Char :=
  let c := civilFromDaysN (t / 86400 + 306)
  let r := t % 86400
  pad4 c.1 ++ '-' :: pad2 c.2.1 ++ '-' :: pad2 c.2.2 ++ 'T' ::
    pad2 (r / 3600) ++ ':' :: pad2 (r % 3600 / 60) ++ ':' :: pad2 (r % 60) ++ ['Z']

/-- Model of `datetime.strptime(s, '%Y-%m-%dT%H:%M:%SZ')`: reads the fixed
20-character shape produced by the `TIME_REGEX` matches and validates the
fields exactly as `datetime` does (`ValueError` otherwise).  Seconds 60 and
61 are accepted by `_strptime` but rejected by the `datetime` constructor,
so the net effect is a 0..59 bound. -/
def parseISO : List Char → Except PyErr Nat
  | [y1, y2, y3, y4, a1, o1, o2, a2, d1, d2, a3, h1, h2, a4, i1, i2, a5, e1, e2, a6] =>
    if y1.isDigit && y2.isDigit && y3.isDigit && y4.isDigit &&
       o1.isDigit && o2.isDigit && d1.isDigit && d2.isDigit &&
       h1.isDigit && h2.isDigit && i1.isDigit && i2.isDigit &&
       e1.isDigit && e2.isDigit &&
       a1 == '-' && a2 == '-' && a3 == 'T' && a4 == ':' && a5 == ':' && a6 == 'Z' then
      let y := dVal y1 * 1000 + dVal y2 * 100 + dVal y3 * 10 + dVal y4
      let mo := dVal o1 * 10 + dVal o2
      let d := dVal d1 * 10 + dVal d2
      let h := dVal h1 * 10 + dVal h2
      let mi := dVal i1 * 10 + dVal i2
      let s := dVal e1 * 10 + dVal e2
      if 1 ≤ y ∧ 1 ≤ mo ∧ mo ≤ 12 ∧ 1 ≤ d ∧ d ≤ daysInMonthN y mo ∧
         h ≤ 23 ∧ mi ≤ 59 ∧ s ≤ 59 then
        .ok (epochOf y mo d h mi s)
      else .error .valueError
    else .error .valueError
  | _ => .error .valueError

/-- Three-letter weekday names as produced and accepted by `%a`
(0001-01-01 of the proleptic Gregorian calendar was a Monday). -/
def wdNames : List (List Char) :=
  [('M' : Char) :: ['o', 'n'], 'T' :: ['u', 'e'], 'W' :: ['e', 'd'], 'T' :: ['h', 'u'],
   'F' :: ['r', 'i'], 'S' :: ['a', 't'], 'S' :: ['u', 'n']]

/-- Three-letter month names as produced and accepted by `%b`. -/
def monNames : List (List Char) :=
  [('J' : Char) :: ['a', 'n'], 'F' :: ['e', 'b'], 'M' :: ['a', 'r'], 'A' :: ['p', 'r'],
   'M' :: ['a', 'y'], 'J' :: ['u', 'n'], 'J' :: ['u', 'l'], 'A' :: ['u', 'g'],
   'S' :: ['e', 'p'], 'O' :: ['c', 't'], 'N' :: ['o', 'v'], 'D' :: ['e', 'c']]

/-- Index of a token in a list of tokens. -/
def idxIn (tok : List Char) : List (List Char) → Option Nat
  | [] => none
  | x :: xs => if x = tok then some 0 else (idxIn tok xs).map (· + 1)

/-- Rendering of `strftime('%H:%MZ %a %b %d %Y')` on the datetime at epoch
second `t` (the minute-precision `Valid:` format; seconds are dropped). -/
def renderValidFmt (t : Nat) : List Char :=
  let n := t / 86400
  let c := civilFromDaysN (n + 306)
  let r := t % 86400
  pad2 (r / 3600) ++ ':' :: pad2 (r % 3600 / 60) ++ 'Z' :: ' ' ::
    (wdNames.getD (n % 7) []) ++ ' ' :: (monNames.getD (c.2.1 - 1) []) ++ ' ' ::
    pad2 c.2.2 ++ ' ' :: pad4 c.1

/-- Model of `datetime.strptime(s, '%H:%MZ %a %b %d %Y')` on the fixed-width
canonical shape (two-digit day, four-digit year, exact-case names; CPython
additionally accepts flexible widths and case-insensitive names, which the
theorems below never rely on).  The weekday token must be a valid name but
its value is ignored, exactly as in CPython.  The parsed datetime has
`second = 0`. -/
def parseValidFmt : List Char → Except PyErr Nat
  | [h1, h2, a1, i1, i2, z1, s1, w1, w2, w3, s2, m1, m2, m3, s3, d1, d2, s4, y1, y2, y3, y4] =>
    if h1.isDigit && h2.isDigit && i1.isDigit && i2.isDigit &&
       d1.isDigit && d2.isDigit &&
       y1.isDigit && y2.isDigit && y3.isDigit && y4.isDigit &&
       a1 == ':' && z1 == 'Z' && s1 == ' ' && s2 == ' ' && s3 == ' ' && s4 == ' ' &&
       (idxIn [w1, w2, w3] wdNames).isSome then
      match idxIn [m1, m2, m3] monNames with
      | none => .error .valueError
      | some moIdx =>
        let y := dVal y1 * 1000 + dVal y2 * 100 + dVal y3 * 10 + dVal y4
        let mo := moIdx + 1
        let d := dVal d1 * 10 + dVal d2
        let h := dVal h1 * 10 + dVal h2
        let mi := dVal i1 * 10 + dVal i2
        if 1 ≤ y ∧ 1 ≤ d ∧ d ≤ daysInMonthN y mo ∧ h ≤ 23 ∧ mi ≤ 59 then
          .ok (epochOf y mo d h mi 0)
        else .error .valueError
      else .error .valueError
  | _ => .error .valueError

/-- Boolean test that `pat` is a prefix of `l`. -/
def begMatch : List Char → List Char → Bool
  | [], _ => true
  | _ :: _, [] => false
  | p :: ps, c :: cs => p == c && begMatch ps cs

/-- Index of the first occurrence of `pat` in `l`; models `str.find` (and
`str.index`) returning the leftmost match position. -/
def firstIdxOf : List Char → List Char → Option Nat
  | [], pat => if begMatch pat [] then some 0 else none
  | l@(_ :: rest), pat =>
    if begMatch pat l then some 0 else (firstIdxOf rest pat).map (· + 1)

/-- Model of Python's `pat in line` substring test. -/
def containsSub (l pat : List Char) : Bool := (firstIdxOf l pat).isSome

/-- Fuel-indexed worker for `replaceAll`; consumes at least one character of
`l` per step, so fuel `l.length` suffices. -/
def replaceAllAux : Nat → List Char → List Char → List Char → List Char
  | 0, l, _, _ => l
  | _ + 1, [], _, _ => []
  | fuel + 1, c :: rest, old, new =>
    if old ≠ [] && begMatch old (c :: rest) then
      new ++ replaceAllAux fuel ((c :: rest).drop old.length) old new
    else c :: replaceAllAux fuel rest old new

/-- Model of Python's `str.replace(old, new)`: leftmost, non-overlapping
replacement of every occurrence (for nonempty `old`, the only case used). -/
def replaceAll (l old new : List Char) : List Char := replaceAllAux l.length l old new

/-- Character-class element of the `TIME_REGEX` pattern. -/
inductive CSpec where
  | dig
  | lit (c : Char)

/-- Matching of a character-class pattern at the head of a string. -/
def matchSpec : List CSpec → List Char → Bool
  | [], _ => true
  | _ :: _, [] => false
  | .dig :: ps, c :: cs => c.isDigit && matchSpec ps cs
  | .lit a :: ps, c :: cs => a == c && matchSpec ps cs

/-- The shape of `TIME_REGEX`:
`[0-9]{4}-[0-9]{2}-[0-9]{2}T[0-9]{2}:[0-9]{2}:[0-9]{2}Z` (20 characters). -/
def isoSpec : List CSpec :=
  [.dig, .dig, .dig, .dig, .lit '-', .dig, .dig, .lit '-', .dig, .dig, .lit 'T',
   .dig, .dig, .lit ':', .dig, .dig, .lit ':', .dig, .dig, .lit 'Z']

/-- Fuel-indexed worker for `findTimes`. -/
def findTimesAux : Nat → List Char → List (List Char)
  | 0, _ => []
  | _ + 1, [] => []
  | fuel + 1, c :: rest =>
    if matchSpec isoSpec (c :: rest) then
      (c :: rest).take 20 :: findTimesAux fuel ((c :: rest).drop 20)
    else findTimesAux fuel rest

/-- Model of `re.findall(TIME_REGEX, line)`: leftmost, non-overlapping
matches, in order. -/
def findTimes (l : List Char) : List (List Char) := findTimesAux l.length l

/-- The literal `'Valid:'` looked for inside `shift_time`. -/
def validKey : List Char := ('V' : Char) :: ['a', 'l', 'i', 'd', ':']

/-- The literal `'TimeRange'`. -/
def trKey : List Char := ('T' : Char) :: ['i', 'm', 'e', 'R', 'a', 'n', 'g', 'e']

/-- The literal `'LSR Time'`. -/
def lsrKey : List Char := ('L' : Char) :: ['S', 'R', ' ', 'T', 'i', 'm', 'e']

/-- The literal `'Valid'` (no colon) from the keyword dispatch in
`shift_placefiles`. -/
def validWord : List Char := ('V' : Char) :: ['a', 'l', 'i', 'd']

/-- The literal `'Time'` from the keyword dispatch in `shift_placefiles`. -/
def timeKey : List Char := ('T' : Char) :: ['i', 'm', 'e']

/-- Model of `shift_time(line, simulation_seconds_shift)` from
`placefiles.py`.  Each of the three branches tests and rewrites the
*original* `line` (as the source does: `new_line` is reassigned from
`line.replace(...)` in every branch), so a later branch overwrites the
result of an earlier one.  Exceptions (`ValueError` from `strptime`,
`IndexError` from `regex[0]`/`regex[1]`, `OverflowError` from the timedelta
addition) abort the call at the same point they would in Python. -/
def shift_time (line : List Char) (simulation_seconds_shift : Int) :
    Except PyErr (List Char) := do
  let n1 ←
    if containsSub line validKey then do
      let idx := (firstIdxOf line validKey).getD 0
      let valid_timestring := (line.drop (idx + 7)).dropLast
      let dt ← parseValidFmt valid_timestring
      let dts ← shiftDT dt simulation_seconds_shift
      pure (replaceAll line valid_timestring (renderValidFmt dts))
    else pure line
  let n2 ←
    if containsSub line trKey then
      match findTimes line with
      | r0 :: rest0 => do
        let t0 ← parseISO r0
        let t0s ← shiftDT t0 simulation_seconds_shift
        match rest0 with
        | r1 :: _ => do
          let t1 ← parseISO r1
          let t1s ← shiftDT t1 simulation_seconds_shift
          pure (replaceAll line (r0 ++ ' ' :: r1) (renderISO t0s ++ ' ' :: renderISO t1s))
        | [] => throw .indexError
      | [] => throw .indexError
    else pure n1
  if containsSub line lsrKey then
    match findTimes line with
    | r0 :: _ => do
      let t0 ← parseISO r0
      let t0s ← shiftDT t0 simulation_seconds_shift
      pure (replaceAll line r0 (renderISO t0s))
    | [] => throw .indexError
  else pure n2

/-- The keyword dispatch `any(x in line for x in ['Valid', 'TimeRange',
'Time'])` guarding the `shift_time` call in `shift_placefiles`. -/
def lineKeyword (line : List Char) : Bool :=
  containsSub line validWord || containsSub line trKey || containsSub line timeKey

/-- Processing of one line of one artifact by the loop body of
`shift_placefiles`, specialized to `radar_info['new_radar'] == 'None'` (no
spatial transposition, the configuration the temporal claims concern; the
lat/lon branch is then dead code).  `shiftOpt = none` models
`sim_times['simulation_seconds_shift'] is None`. -/
def shiftLine (shiftOpt : Option Int) (line : List Char) : Except PyErr (List Char) :=
  match shiftOpt with
  | some s => if lineKeyword line then shift_time line s else pure line
  | none => pure line

/-- Sequential processing of an artifact's lines, accumulating the lines
written to the output file; the first exception aborts the loop. -/
def writeLinesAux (shiftOpt : Option Int) : List (List Char) → Except PyErr (List (List Char))
  | [] => .ok []
  | l :: ls => do
    let nl ← shiftLine shiftOpt l
    let rest ← writeLinesAux shiftOpt ls
    pure (nl :: rest)

/-- The exception classes caught by `except (IOError, ValueError, KeyError)`
in `shift_placefiles`. -/
def pyCaught : PyErr → Bool
  | .ioError => true
  | .valueError => true
  | .keyError => true
  | _ => false

/-- Placeholder rendering of `str(e)` in the diagnostic line (the model uses
the exception class name; the theorems never depend on the message text). -/
def errText : PyErr → List Char
  | .ioError => ('I' : Char) :: ['O', 'E', 'r', 'r', 'o', 'r']
  | .valueError => ('V' : Char) :: ['a', 'l', 'u', 'e', 'E', 'r', 'r', 'o', 'r']
  | .keyError => ('K' : Char) :: ['e', 'y', 'E', 'r', 'r', 'o', 'r']
  | .indexError => ('I' : Char) :: ['n', 'd', 'e', 'x', 'E', 'r', 'r', 'o', 'r']
  | .overflowError => ('O' : Char) :: ['v', 'e', 'r', 'f', 'l', 'o', 'w', 'E', 'r', 'r', 'o', 'r']

/-- The diagnostic line `f"Errors shifting this placefile: {e}"`. -/
def errLine (e : PyErr) : List Char :=
  "Errors shifting this placefile: ".toList ++ errText e

/-- Outcome for one artifact: the list of lines found in its `_shifted.txt`
output.  A caught exception truncates the output and replaces it with the
single diagnostic line (`outfile.truncate(0)` followed by one write); an
uncaught exception propagates. -/
def processArtifact (shiftOpt : Option Int) (lines : List (List Char)) :
    Except PyErr (List (List Char)) :=
  match writeLinesAux shiftOpt lines with
  | .ok outs => .ok outs
  | .error e => if pyCaught e then .ok [errLine e] else .error e

/-- Model of the artifact loop of `shift_placefiles` over the list of input
artifacts (each a list of lines), specialized as in `shiftLine`.  Returns
the outputs of the completed artifacts together with the uncaught exception,
if any, that aborted the loop; artifacts after an uncaught exception are
never processed. -/
def shift_placefiles (shiftOpt : Option Int) :
    List (List (List Char)) → List (List (List Char)) × Option PyErr
  | [] => ([], none)
  | a :: rest =>
    match processArtifact shiftOpt a with
    | .ok o =>
      let r := shift_placefiles shiftOpt rest
      (o :: r.1, r.2)
    | .error e => ([], some e)

/-- The record returned by `make_simulation_times` (the datetime-valued and
integer-valued fields; the `_str` fields and the dropdown list are display
artifacts of the same values).  Instants are epoch seconds; `playback_start`
may precede the epoch for extreme inputs, hence `Int`. -/
structure SimTimes where
  playback_end : Int
  playback_start : Int
  playback_clock : Int
  simulation_seconds_shift : Int
  event_duration : Nat
deriving DecidableEq, Repr

/-- Model of `make_simulation_times(event_start_time, event_duration)` from
`times.py`, with the wall clock `datetime.now(pytz.utc)` supplied as the
epoch-second parameter `now`.  `.replace(second=0, microsecond=0)` floors to
the minute; subtracting `timedelta(minutes=now.minute % 15)` then floors to
the quarter hour.  Both datetimes entering `simulation_time_shift` are
minute-aligned, so `round(...total_seconds())` is exact integer
subtraction. -/
def make_simulation_times (event_start_time : Int) (event_duration : Nat) (now : Nat) :
    SimTimes :=
  let nowFloor : Nat := now - now % 60
  let playback_end : Nat := nowFloor - 60 * (nowFloor / 60 % 60 % 15)
  let playback_start : Int := (playback_end : Int) - 60 * event_duration
  let playback_clock : Int := playback_start + 600
  { playback_end := playback_end
    playback_start := playback_start
    playback_clock := playback_clock
    simulation_seconds_shift := playback_start - event_start_time
    event_duration := event_duration }

/-- Python's built-in `round` on a rational (round half to even), used for
`round(15*specs['playback_speed'])`. -/
def pyRound (q : ℚ) : Int :=
  let f := ⌊q⌋
  if q - f < 1 / 2 then f
  else if 1 / 2 < q - f then f + 1
  else if Even f then f else f + 1

/-- The playback-engine state carried in the `playback_specs` store, as read
and written by `manage_clock_` (clock fields as epoch seconds; the string
fields `playback_clock_str` etc. mirror the same values and are omitted). -/
structure PlaybackSpecs where
  playback_clock : Int
  playback_end : Int
  playback_start : Int
  playback_speed : ℚ
  interval_disabled : Bool
  status : String
  playback_paused : Bool
  playback_btn_text : String
  style : String
deriving DecidableEq, Repr

/-- The Dash component that fired the callback (`ctx.triggered_id`). -/
inductive Trigger where
  | playback_timer
  | pause_resume_btn (nclicks : Nat)
  | change_time (new_time : Int)
  | playback_running_store
  | playback_speed_store
deriving DecidableEq, Repr

/-- Model of the state transition performed by `manage_clock_` in `app.py`
on the `playback_specs` store.  The source first sets the four working
variables to the running defaults, then overrides them per trigger; for
`playback_speed_store` and `change_time` it restores all four (and `style`)
from the stored specs so that neither event restarts a paused simulation.
On a timer tick the clock advances by `round(15*playback_speed)` seconds;
reaching `playback_end` disables the interval, pauses, marks the simulation
complete and resets the clock to `playback_start + 600` seconds (parsed back
from `playback_start_str`). -/
def manage_clock_ (trigger : Trigger) (playback_speed : ℚ) (specs : PlaybackSpecs) :
    PlaybackSpecs :=
  let s0 := { specs with playback_speed := playback_speed }
  match trigger with
  | .playback_timer =>
    let c := s0.playback_clock + pyRound (15 * playback_speed)
    if c < s0.playback_end then
      { s0 with playback_clock := c, interval_disabled := false, status := "Running",
                playback_paused := false, playback_btn_text := "Pause Playback",
                style := "green" }
    else
      { s0 with playback_clock := s0.playback_start + 600, interval_disabled := true,
                status := "Simulation Complete", playback_paused := true,
                playback_btn_text := "Restart Simulation", style := "yellow" }
  | .pause_resume_btn nclicks =>
    if nclicks % 2 = 1 then
      { s0 with interval_disabled := true, status := "Paused", playback_paused := true,
                playback_btn_text := "Resume Playback", style := "yellow" }
    else
      { s0 with interval_disabled := false, status := "Running", playback_paused := false,
                playback_btn_text := "Pause Playback", style := "green" }
  | .change_time new_time =>
    { s0 with playback_clock := new_time,
              interval_disabled := specs.interval_disabled, status := specs.status,
              playback_paused := specs.playback_paused,
              playback_btn_text := specs.playback_btn_text, style := specs.style }
  | .playback_running_store =>
    { s0 with interval_disabled := false, status := "Running", playback_paused := false,
              playback_btn_text := "Pause Playback", style := "green" }
  | .playback_speed_store =>
    { s0 with interval_disabled := specs.interval_disabled, status := specs.status,
              playback_paused := specs.playback_paused,
              playback_btn_text := specs.playback_btn_text, style := specs.style }

/-- Linux value of `signal.SIGTERM`. -/
def SIGTERM : Int := 15

/-- The cooperative-cancellation test `returncode in [signal.SIGTERM,
-1*signal.SIGTERM]` applied to every stage result in `processing.py`. -/
def isSigterm (rc : Int) : Bool := rc == SIGTERM || rc == -SIGTERM

/-- Effective result of `query_radar_files`: the loop over radars breaks at
the first SIGTERM result, otherwise the last result is returned.  (An empty
radar list would raise `NameError` in the source; the model returns 0,
outside the scope of the claims.) -/
def queryEffRC (rcs : List Int) : Int :=
  match rcs.find? (fun rc => isSigterm rc) with
  | some rc => rc
  | none => rcs.getLastD 0

/-- Status outcome and `script_status.txt` writes of
`query_and_download_radars` (processing.py): `status` starts `'cancelled'`;
a SIGTERM result from the links-page script, the query, or any per-radar
download writes and returns `'cancelled'`; otherwise `'running'` is written
and returned.  The external process results are supplied as returncodes. -/
def query_and_download_radars (linksRC : Int) (queryRCs : List Int) (dlRCs : List Int) :
    String × List String :=
  if isSigterm linksRC then ("cancelled", ["cancelled"])
  else if isSigterm (queryEffRC queryRCs) then ("cancelled", ["cancelled"])
  else if (dlRCs.find? (fun rc => isSigterm rc)).isSome then ("cancelled", ["cancelled"])
  else ("running", ["running"])

/-- Status outcome and writes of `munger_radar`: per-radar munger script
results; first SIGTERM cancels, else `'running'`. -/
def munger_radar (rcs : List Int) : String × List String :=
  if (rcs.find? (fun rc => isSigterm rc)).isSome then ("cancelled", ["cancelled"])
  else ("running", ["running"])

/-- Status outcome and writes of `generate_events_files`. -/
def generate_events_files (rc : Int) : String × List String :=
  if isSigterm rc then ("cancelled", ["cancelled"]) else ("running", ["running"])

/-- Status outcome and writes of `generate_nse_placefiles`. -/
def generate_nse_placefiles (rc : Int) : String × List String :=
  if isSigterm rc then ("cancelled", ["cancelled"]) else ("running", ["running"])

/-- Status outcome and writes of `generate_hodographs` (per-radar loop). -/
def generate_hodographs (rcs : List Int) : String × List String :=
  if (rcs.find? (fun rc => isSigterm rc)).isSome then ("cancelled", ["cancelled"])
  else ("running", ["running"])

/-- The pipeline stages distinguished by `run_scripts`. -/
inductive Stage where
  | download
  | munger
  | placefiles
  | events
  | nse
  | transpose
  | hodographs
deriving DecidableEq, Repr

/-- The stage-selection map built by `coordinate_processing_scripts`. -/
structure ScriptsToRun where
  query_and_download_radar : Bool
  munger_radar : Bool
  placefiles : Bool
  nse_placefiles : Bool
  hodographs : Bool
deriving DecidableEq, Repr

/-- Returncodes of the external collaborator invocations of one run,
supplied as inputs to the coordinator model. -/
structure StageResults where
  linksRC : Int
  queryRCs : List Int
  dlRCs : List Int
  mungerRCs : List Int
  eventsRC : Int
  nseRC : Int
  hodoRCs : List Int

/-- Outcome of `run_scripts`: final status, ordered `script_status.txt`
writes, ordered list of stages invoked, and whether the run crashed with
`TypeError` (see `run_scripts` below). -/
structure RunOutcome where
  status : String
  writes : List String
  executed : List Stage
  crashed : Bool
deriving DecidableEq, Repr

/-- One optional stage of `run_scripts`: when it is selected and the status
is still `'running'`, the stage runs, its writes are appended and it is
recorded as executed; otherwise the state passes through unchanged. -/
def stageStep (sel : Bool) (r : String × List String) (st : Stage)
    (x : String × List String × List Stage) : String × List String × List Stage :=
  if sel = true ∧ x.1 = "running" then (r.1, x.2.1 ++ r.2, x.2.2 ++ [st]) else x

/-- Model of `run_scripts(scripts_to_run, sim_times, configs, radar_info,
lsr_delay)` from `app.py`: status starts `'running'`; each optional stage
runs only if selected and the status is still `'running'`; the events stage
and the transpose step are guarded by the status alone.  The source invokes
`processing.generate_fast_placefiles(radar_info, configs, sim_times,
lsr_delay)` with four positional arguments, but `processing.py` defines it
with three parameters, so invoking the placefiles stage raises `TypeError`
immediately; the model records this as `crashed := true` and stops, as the
exception propagates out of `run_scripts`. -/
def run_scripts (flags : ScriptsToRun) (res : StageResults) : RunOutcome :=
  let s1 :=
    if flags.query_and_download_radar then
      let r := query_and_download_radars res.linksRC res.queryRCs res.dlRCs
      (r.1, r.2, [Stage.download])
    else ("running", ([] : List String), ([] : List Stage))
  let s2 := stageStep flags.munger_radar (munger_radar res.mungerRCs) Stage.munger s1
  if flags.placefiles ∧ s2.1 = "running" then
    { status := s2.1, writes := s2.2.1, executed := s2.2.2 ++ [Stage.placefiles],
      crashed := true }
  else
    let s4 := stageStep true (generate_events_files res.eventsRC) Stage.events s2
    let s5 := stageStep flags.nse_placefiles (generate_nse_placefiles res.nseRC)
      Stage.nse s4
    let s6 := stageStep true (s5.1, []) Stage.transpose s5
    let s7 := stageStep flags.hodographs (generate_hodographs res.hodoRCs)
      Stage.hodographs s6
    { status := s7.1, writes := s7.2.1, executed := s7.2.2, crashed := false }

/-- The `script_status.txt` writes performed by one invocation of
`coordinate_processing_scripts` (app.py): `'running'` before the stages, the
stage functions' own writes, then `'completed'` only when `run_scripts`
returned with status `'running'` (a `TypeError` crash inside `run_scripts`
propagates, so nothing more is written). -/
def coordinate_processing_scripts (flags : ScriptsToRun) (res : StageResults) :
    List String :=
  let out := run_scripts flags res
  if out.crashed then "running" :: out.writes
  else if out.status = "running" then "running" :: out.writes ++ ["completed"]
  else "running" :: out.writes

/-- The status string written by `generate_layout` (app.py line 165). -/
def generate_layout_write : String := "startup"

/-- The status string written by `initiate_playback` (app.py line 1144). -/
def initiate_playback_write : String := "sim launched"

/-- A string is a system status write when some modelled operation writes it
to `script_status.txt`: the `generate_layout` startup write, the
`initiate_playback` launch write, or any write of a coordinator run. -/
def SystemStatusWrite (s : String) : Prop :=
  s = generate_layout_write ∨ s = initiate_playback_write ∨
    ∃ flags res, s ∈ coordinate_processing_scripts flags res

/-- Model of `math.radians`. -/
noncomputable def radiansR (x : ℝ) : ℝ := x * Real.pi / 180

/-- Model of `math.degrees`. -/
noncomputable def degreesR (x : ℝ) : ℝ := x * 180 / Real.pi

/-- Model of `math.atan2(y, x)`. -/
noncomputable def atan2R (y x : ℝ) : ℝ :=
  if 0 < x then Real.arctan (y / x)
  else if x < 0 then
    (if 0 ≤ y then Real.arctan (y / x) + Real.pi else Real.arctan (y / x) - Real.pi)
  else
    (if 0 < y then Real.pi / 2 else if y < 0 then -(Real.pi / 2) else 0)

/-- Model of Python's float `%` (sign of the divisor), used for
`(math.degrees(theta) + 360) % 360`. -/
noncomputable def fmodR (a b : ℝ) : ℝ := a - b * ⌊a / b⌋

/-- The helper `_clamp(n, minimum, maximum) = max(min(maximum, n), minimum)`
defined inside `move_point`. -/
noncomputable def pyClamp (n minimum maximum : ℝ) : ℝ := max (min maximum n) minimum

/-- Earth radius constant `R` from `placefiles.py`. -/
def earthR : ℝ := 6378137

/-- The haversine intermediate
`a = sin(d_phi/2)**2 + cos(phi1)*cos(phi2)*sin(d_lambda/2)**2`
computed by `move_point` before clamping. -/
noncomputable def haversineRaw (plat plon lat lon : ℝ) : ℝ :=
  let phi1 := radiansR lat
  let phi2 := radiansR plat
  let d_phi := radiansR (plat - lat)
  let d_lambda := radiansR (plon - lon)
  Real.sin (d_phi / 2) ^ 2 + Real.cos phi1 * Real.cos phi2 * Real.sin (d_lambda / 2) ^ 2

/-- The clamped haversine term `a = _clamp(a, 0, a)` of `move_point`; this is
the argument handed to the first `math.sqrt`, and `1 - a` is the argument
handed to the second. -/
noncomputable def haversineClamped (plat plon lat lon : ℝ) : ℝ :=
  pyClamp (haversineRaw plat plon lat lon) 0 (haversineRaw plat plon lat lon)

/-- Model of `move_point(plat, plon, lat, lon, new_radar_lat, new_radar_lon)`
from `placefiles.py`, over exact reals (the floating-point rounding of the
source is not modelled; see `haversineClamped` for the clamp). -/
noncomputable def move_point (plat plon lat lon new_radar_lat new_radar_lon : ℝ) :
    ℝ × ℝ :=
  let phi1 := radiansR lat
  let phi2 := radiansR plat
  let d_lambda := radiansR (plon - lon)
  let a := haversineClamped plat plon lat lon
  let c := 2 * atan2R (Real.sqrt a) (Real.sqrt (1 - a))
  let d := earthR * c
  let y := Real.sin d_lambda * Real.cos phi2
  let x := Real.cos phi1 * Real.sin phi2 - Real.sin phi1 * Real.cos phi2 * Real.cos d_lambda
  let theta := atan2R y x
  let bearing := fmodR (degreesR theta + 360) 360
  let phi_new := radiansR new_radar_lat
  let lambda_new := radiansR new_radar_lon
  let phi_out := Real.arcsin (Real.sin phi_new * Real.cos (d / earthR) +
    Real.cos phi_new * Real.sin (d / earthR) * Real.cos (radiansR bearing))
  let lambda_out := lambda_new + atan2R
    (Real.sin (radiansR bearing) * Real.sin (d / earthR) * Real.cos phi_new)
    (Real.cos (d / earthR) - Real.sin phi_new * Real.sin phi_out)
  (degreesR phi_out, degreesR lambda_out)

/-- A string with no digit characters (so the `TIME_REGEX` scanner and the
digit-headed replacement patterns cannot match inside it). -/
def DigitFree (l : List Char) : Prop := ∀ c ∈ l, c.isDigit = false

/-- Whether a pattern starts with a digit character. -/
def headDigit : List Char → Bool
  | [] => false
  | c :: _ => c.isDigit

/-- An epoch second whose year lies in 1000..9999 (so its 4-digit rendering
is faithful) and which is representable by `datetime`. -/
def EpochOK (t : Nat) : Prop :=
  1000 ≤ yearOfEpoch t ∧ yearOfEpoch t ≤ 9999 ∧ t ≤ maxEpochN

/-- A line containing exactly one well-formed recognized timestamp encoding,
in the sense the round-trip claim concerns: one of the three branch shapes of
`shift_time`, with the surrounding text free of digits and of the characters
that could introduce another keyword, and with both the original and the
shifted instants representable with 4-digit years.  For the minute-precision
`Valid:` shape the shift must be a whole number of minutes.  -/
def RoundTripLine (line : List Char) (S : Int) : Prop :=
  (∃ (pre : List Char) (t ts : Nat), line = pre ++ (validKey ++ (' ' :: (renderValidFmt t ++ ['\n']))) ∧
    (ts : Int) = (t : Int) + S ∧ t % 60 = 0 ∧ S % 60 = 0 ∧ DigitFree pre ∧
    'V' ∉ pre ∧ 'R' ∉ pre ∧ EpochOK t ∧ EpochOK ts) ∨
  (∃ (pre suf : List Char) (t1 t2 t1s t2s : Nat),
    line = pre ++ (renderISO t1 ++ ' ' :: (renderISO t2 ++ suf)) ∧
    (t1s : Int) = (t1 : Int) + S ∧ (t2s : Int) = (t2 : Int) + S ∧
    DigitFree pre ∧ DigitFree suf ∧ 'V' ∉ pre ∧ 'V' ∉ suf ∧ 'L' ∉ pre ∧ 'L' ∉ suf ∧
    containsSub pre trKey = true ∧ EpochOK t1 ∧ EpochOK t2 ∧ EpochOK t1s ∧ EpochOK t2s) ∨
  (∃ (pre suf : List Char) (t ts : Nat), line = pre ++ (renderISO t ++ suf) ∧ (ts : Int) = (t : Int) + S ∧
    DigitFree pre ∧ DigitFree suf ∧ 'V' ∉ pre ∧ 'V' ∉ suf ∧ 'g' ∉ pre ∧ 'g' ∉ suf ∧
    containsSub pre lsrKey = true ∧ EpochOK t ∧ EpochOK ts)

/-! ## Calendar lemmas -/

theorem succDiv4 (b : Nat) (h : (b + 1) % 4 = 0) : (b + 1) / 4 = b / 4 + 1 := by omega

theorem succDiv4' (b : Nat) (h : (b + 1) % 4 ≠ 0) : (b + 1) / 4 = b / 4 := by omega

theorem succDiv100 (b : Nat) (h : (b + 1) % 100 = 0) : (b + 1) / 100 = b / 100 + 1 := by
  omega

theorem succDiv100' (b : Nat) (h : (b + 1) % 100 ≠ 0) : (b + 1) / 100 = b / 100 := by omega

/-- The corrected approximate year-of-era is exact: it starts at or before
`doe`, is at most 399, leaves a day-of-year of at most 365, and a day-of-year
of exactly 365 (a 366th day) occurs only in leap years of the era. -/
theorem yoeOf_spec (doe : Nat) (h : doe < 146097) :
    yearStartN (yoeOf doe) ≤ doe ∧ yoeOf doe ≤ 399 ∧ doe - yearStartN (yoeOf doe) ≤ 365 ∧
      (doe - yearStartN (yoeOf doe) = 365 →
        ((yoeOf doe + 1) % 4 = 0 ∧ (yoeOf doe + 1) % 100 ≠ 0) ∨ yoeOf doe = 399) := by
  have hdm := Nat.div_add_mod doe 365
  have hmlt : doe % 365 < 365 := Nat.mod_lt _ (by omega)
  simp only [yoeOf, yearStartN]
  generalize hya : doe / 365 = ya at *
  by_cases h1 : doe < 365 * ya + ya / 4 - ya / 100
  · have hya1 : 1 ≤ ya := by omega
    have h2 : ya - 1 ≤ 399 := by omega
    simp only [if_pos h1, if_pos h2]
    obtain ⟨b, hb⟩ : ∃ b, ya - 1 = b := ⟨ya - 1, rfl⟩
    rw [hb]
    have hb1 : b + 1 = ya := by omega
    rw [hb1]
    rw [← hb1] at h1 hdm ⊢
    by_cases h4 : (b + 1) % 4 = 0
    · rw [succDiv4 b h4] at *
      by_cases h100 : (b + 1) % 100 = 0
      · rw [succDiv100 b h100] at *; omega
      · rw [succDiv100' b h100] at *; omega
    · rw [succDiv4' b h4] at *
      by_cases h100 : (b + 1) % 100 = 0
      · rw [succDiv100 b h100] at *; omega
      · rw [succDiv100' b h100] at *; omega
  · simp only [if_neg h1]
    split_ifs <;> omega

/-- The corrected approximate shifted month is exact: it starts at or before
`doy`, is at most 11, the day-of-month stays within the month length, and
day-of-year 365 falls in the last shifted month (February). -/
theorem mpOf_spec (doy : Nat) (h : doy ≤ 365) :
    monthStartN (mpOf doy) ≤ doy ∧ mpOf doy ≤ 11 ∧
      doy - monthStartN (mpOf doy) + 1 ≤ monthStartN (mpOf doy + 1) - monthStartN (mpOf doy) ∧
      (doy = 365 → mpOf doy = 11) := by
  simp only [mpOf, monthStartN]
  split_ifs <;> omega

/-- The civil-date conversion is a right inverse of the day-number
conversion: re-encoding the decoded date gives back the day number. -/
theorem daysFromCivil_civilFromDays (n : Nat) :
    daysFromCivilN (civilY n) (civilM n) (civilD n) = n := by
  have hdoe : n % 146097 < 146097 := Nat.mod_lt _ (by norm_num)
  have hdm := Nat.div_add_mod n 146097
  obtain ⟨hys, hyoe, hdoy, _⟩ := yoeOf_spec (n % 146097) hdoe
  obtain ⟨hms, hmp, hdlen, _⟩ := mpOf_spec (doyOfN n) (show doyOfN n ≤ 365 from hdoy)
  have hmpdef : mpOf (doyOfN n) = mpOfN n := rfl
  rw [hmpdef] at hms hmp hdlen
  have hdoydef : doyOfN n = n % 146097 - yearStartN (yoeOf (n % 146097)) := rfl
  by_cases hm10 : mpOfN n < 10
  · simp only [daysFromCivilN, civilY, civilM, civilD, if_pos hm10]
    have hc : ¬ (mpOfN n + 3 ≤ 2) := by omega
    simp only [if_neg hc]
    have e1 : (n / 146097 * 400 + yoeOf (n % 146097)) / 400 = n / 146097 := by omega
    have e2 : (n / 146097 * 400 + yoeOf (n % 146097)) % 400 = yoeOf (n % 146097) := by omega
    have e3 : mpOfN n + 3 - 3 = mpOfN n := by omega
    rw [e1, e2, e3]
    omega
  · simp only [daysFromCivilN, civilY, civilM, civilD, if_neg hm10]
    have hc : mpOfN n - 9 ≤ 2 := by omega
    simp only [if_pos hc]
    have e0 : n / 146097 * 400 + yoeOf (n % 146097) + 1 - 1 =
        n / 146097 * 400 + yoeOf (n % 146097) := by omega
    have e1 : (n / 146097 * 400 + yoeOf (n % 146097)) / 400 = n / 146097 := by omega
    have e2 : (n / 146097 * 400 + yoeOf (n % 146097)) % 400 = yoeOf (n % 146097) := by omega
    have e3 : mpOfN n - 9 + 9 = mpOfN n := by omega
    rw [e0, e1, e2, e3]
    omega

/-- The decoded civil components form a valid date: month in 1..12, day in
1..month length (so re-parsing a rendered date passes `datetime`'s
validation). -/
theorem civil_components_valid (n : Nat) :
    1 ≤ civilM n ∧ civilM n ≤ 12 ∧ 1 ≤ civilD n ∧
      civilD n ≤ daysInMonthN (civilY n) (civilM n) := by
  have hdoe : n % 146097 < 146097 := Nat.mod_lt _ (by norm_num)
  obtain ⟨hys, hyoe, hdoy, hleap⟩ := yoeOf_spec (n % 146097) hdoe
  obtain ⟨hms, hmp, hdlen, hmp11⟩ := mpOf_spec (doyOfN n) (show doyOfN n ≤ 365 from hdoy)
  have hmpdef : mpOf (doyOfN n) = mpOfN n := rfl
  rw [hmpdef] at hms hmp hdlen hmp11
  have hdoydef : doyOfN n = n % 146097 - yearStartN (yoeOf (n % 146097)) := rfl
  obtain ⟨mp, hmpe⟩ : ∃ mp, mpOfN n = mp := ⟨_, rfl⟩
  rw [hmpe] at hms hmp hdlen hmp11
  by_cases hm10 : mp < 10
  · simp only [civilM, civilD, civilY, hmpe, if_pos hm10]
    interval_cases mp <;>
      simp only [daysInMonthN, monthStartN] at hdlen ⊢ <;> norm_num at hdlen ⊢ <;> omega
  · simp only [civilM, civilD, civilY, hmpe, if_neg hm10]
    have hmp1011 : mp = 10 ∨ mp = 11 := by omega
    rcases hmp1011 with h10 | h11
    · subst h10
      simp only [daysInMonthN, monthStartN] at hdlen ⊢
      norm_num at hdlen ⊢
      omega
    · subst h11
      have hiff : (isLeapN (n / 146097 * 400 + yoeOf (n % 146097) + 1) = true) ↔
          (((n / 146097 * 400 + yoeOf (n % 146097) + 1) % 4 = 0 ∧
            (n / 146097 * 400 + yoeOf (n % 146097) + 1) % 100 ≠ 0) ∨
           (n / 146097 * 400 + yoeOf (n % 146097) + 1) % 400 = 0) := by
        simp [isLeapN]
      simp only [daysInMonthN, monthStartN] at hdlen ⊢
      norm_num at hdlen ⊢
      by_cases hl : isLeapN (n / 146097 * 400 + yoeOf (n % 146097) + 1) = true
      · rw [if_pos hl]
        omega
      · rw [if_neg hl]
        rw [hiff] at hl
        push_neg at hl
        omega

/-! ## Digit and character lemmas -/

theorem dCh_toNat (k : Nat) : (dCh k).toNat = 48 + k % 10 := by
  have h : k % 10 < 10 := Nat.mod_lt _ (by norm_num)
  unfold dCh
  obtain ⟨r, hr⟩ : ∃ r, k % 10 = r := ⟨_, rfl⟩
  rw [hr] at h ⊢
  interval_cases r <;> rfl

theorem dCh_isDigit (k : Nat) : (dCh k).isDigit = true := by
  have h : k % 10 < 10 := Nat.mod_lt _ (by norm_num)
  unfold dCh
  obtain ⟨r, hr⟩ : ∃ r, k % 10 = r := ⟨_, rfl⟩
  rw [hr] at h ⊢
  interval_cases r <;> rfl

theorem dVal_dCh (k : Nat) : dVal (dCh k) = k % 10 := by
  unfold dVal
  rw [dCh_toNat]
  omega

theorem dCh_ne_of_not_digit (k : Nat) (c : Char) (hc : c.isDigit = false) : dCh k ≠ c := by
  intro h
  rw [← h, dCh_isDigit] at hc
  exact absurd hc (by simp)

theorem daysInMonthN_le (y m : Nat) : daysInMonthN y m ≤ 31 := by
  simp only [daysInMonthN]
  split_ifs <;> omega

/-- Parsing a rendered ISO field bundle recovers the fields. -/
theorem parseISO_fields (y mo d h mi s : Nat) (hy1 : 1 ≤ y) (hy2 : y ≤ 9999)
    (hmo1 : 1 ≤ mo) (hmo2 : mo ≤ 12) (hd1 : 1 ≤ d) (hd2 : d ≤ daysInMonthN y mo)
    (hh : h ≤ 23) (hmi : mi ≤ 59) (hs : s ≤ 59) :
    parseISO (pad4 y ++ '-' :: pad2 mo ++ '-' :: pad2 d ++ 'T' :: pad2 h ++ ':' ::
      pad2 mi ++ ':' :: pad2 s ++ ['Z']) = .ok (epochOf y mo d h mi s) := by
  have hd31 : d ≤ 31 := le_trans hd2 (daysInMonthN_le y mo)
  simp only [pad4, pad2, List.cons_append, List.nil_append, parseISO, dCh_isDigit,
    dVal_dCh]
  norm_num
  have ey : y / 1000 % 10 * 1000 + y / 100 % 10 * 100 + y / 10 % 10 * 10 + y % 10 = y := by
    omega
  have emo : mo / 10 % 10 * 10 + mo % 10 = mo := by omega
  have ed : d / 10 % 10 * 10 + d % 10 = d := by omega
  have eh : h / 10 % 10 * 10 + h % 10 = h := by omega
  have emi : mi / 10 % 10 * 10 + mi % 10 = mi := by omega
  have es : s / 10 % 10 * 10 + s % 10 = s := by omega
  rw [ey, emo, ed, eh, emi, es]
  rw [if_pos ⟨hy1, hmo1, hmo2, hd1, hd2, hh, hmi, hs⟩]

set_option maxRecDepth 4000 in
/-- Parsing the rendered ISO timestamp of any representable epoch second
recovers that second exactly. -/
theorem parseISO_renderISO (t : Nat) (hy1 : 1 ≤ yearOfEpoch t)
    (hy2 : yearOfEpoch t ≤ 9999) :
    parseISO (renderISO t) = .ok t := by
  obtain ⟨hm1, hm2, hd1, hd2⟩ := civil_components_valid (t / 86400 + 306)
  have h24 : t % 86400 / 3600 ≤ 23 := by omega
  have h59 : t % 86400 % 3600 / 60 ≤ 59 := by omega
  have hs59 : t % 86400 % 60 ≤ 59 := by omega
  have hren : renderISO t = pad4 (civilY (t / 86400 + 306)) ++ '-' ::
      pad2 (civilM (t / 86400 + 306)) ++ '-' :: pad2 (civilD (t / 86400 + 306)) ++ 'T' ::
      pad2 (t % 86400 / 3600) ++ ':' :: pad2 (t % 86400 % 3600 / 60) ++ ':' ::
      pad2 (t % 86400 % 60) ++ ['Z'] := rfl
  have hy1c : 1 ≤ civilY (t / 86400 + 306) := hy1
  have hy2c : civilY (t / 86400 + 306) ≤ 9999 := hy2
  rw [hren, parseISO_fields _ _ _ _ _ _ hy1c hy2c hm1 hm2 hd1 hd2 h24 h59 hs59]
  have hday : dayNumOfCivil (civilY (t / 86400 + 306)) (civilM (t / 86400 + 306))
      (civilD (t / 86400 + 306)) = t / 86400 := by
    unfold dayNumOfCivil
    rw [daysFromCivil_civilFromDays]
    omega
  simp only [epochOf]
  rw [hday]
  simp only [Except.ok.injEq]
  omega

theorem wd_token_shape (k : Nat) (h : k < 7) : ∃ a b c, wdNames.getD k [] = [a, b, c] := by
  interval_cases k <;> exact ⟨_, _, _, rfl⟩

theorem wd_token_mem (k : Nat) (h : k < 7) :
    (idxIn (wdNames.getD k []) wdNames).isSome = true := by
  interval_cases k <;> decide

theorem mon_token_shape (k : Nat) (h : k < 12) :
    ∃ a b c, monNames.getD k [] = [a, b, c] := by
  interval_cases k <;> exact ⟨_, _, _, rfl⟩

theorem mon_token_idx (k : Nat) (h : k < 12) :
    idxIn (monNames.getD k []) monNames = some k := by
  interval_cases k <;> decide

/-- Parsing a rendered `Valid:` field bundle recovers the fields (with
seconds zero, as the format has no seconds field). -/
theorem parseValid_fields (w1 w2 w3 m1 m2 m3 : Char) (moIdx y d h mi : Nat)
    (hw : (idxIn [w1, w2, w3] wdNames).isSome = true)
    (hm : idxIn [m1, m2, m3] monNames = some moIdx)
    (hy1 : 1 ≤ y) (hy2 : y ≤ 9999) (hd1 : 1 ≤ d) (hd2 : d ≤ daysInMonthN y (moIdx + 1))
    (hh : h ≤ 23) (hmi : mi ≤ 59) :
    parseValidFmt (pad2 h ++ ':' :: pad2 mi ++ 'Z' :: ' ' :: [w1, w2, w3] ++ ' ' ::
      [m1, m2, m3] ++ ' ' :: pad2 d ++ ' ' :: pad4 y) =
      .ok (epochOf y (moIdx + 1) d h mi 0) := by
  have hd31 : d ≤ 31 := le_trans hd2 (daysInMonthN_le y (moIdx + 1))
  simp only [pad2, pad4, List.cons_append, List.nil_append, parseValidFmt, dCh_isDigit,
    dVal_dCh, hw, hm]
  norm_num
  have ey : y / 1000 % 10 * 1000 + y / 100 % 10 * 100 + y / 10 % 10 * 10 + y % 10 = y := by
    omega
  have ed : d / 10 % 10 * 10 + d % 10 = d := by omega
  have eh : h / 10 % 10 * 10 + h % 10 = h := by omega
  have emi : mi / 10 % 10 * 10 + mi % 10 = mi := by omega
  rw [ey, ed, eh, emi]
  rw [if_pos ⟨hy1, hd1, hd2, hh, hmi⟩]

set_option maxRecDepth 4000 in
/-- Parsing the rendered `Valid:` timestamp of a representable epoch second
recovers that second floored to the minute (the format drops seconds). -/
theorem parseValid_renderValid (t : Nat) (hy1 : 1 ≤ yearOfEpoch t)
    (hy2 : yearOfEpoch t ≤ 9999) :
    parseValidFmt (renderValidFmt t) = .ok (t - t % 60) := by
  obtain ⟨hm1, hm2, hd1, hd2⟩ := civil_components_valid (t / 86400 + 306)
  have h24 : t % 86400 / 3600 ≤ 23 := by omega
  have h59 : t % 86400 % 3600 / 60 ≤ 59 := by omega
  have hy1c : 1 ≤ civilY (t / 86400 + 306) := hy1
  have hy2c : civilY (t / 86400 + 306) ≤ 9999 := hy2
  have hren : renderValidFmt t = pad2 (t % 86400 / 3600) ++ ':' ::
      pad2 (t % 86400 % 3600 / 60) ++ 'Z' :: ' ' :: (wdNames.getD (t / 86400 % 7) []) ++
      ' ' :: (monNames.getD (civilM (t / 86400 + 306) - 1) []) ++ ' ' ::
      pad2 (civilD (t / 86400 + 306)) ++ ' ' :: pad4 (civilY (t / 86400 + 306)) := rfl
  obtain ⟨a, b, c, hwd⟩ := wd_token_shape (t / 86400 % 7) (Nat.mod_lt _ (by norm_num))
  obtain ⟨e1, e2, e3, hmon⟩ := mon_token_shape (civilM (t / 86400 + 306) - 1) (by omega)
  have hw : (idxIn [a, b, c] wdNames).isSome = true := by
    rw [← hwd]; exact wd_token_mem _ (Nat.mod_lt _ (by norm_num))
  have hm : idxIn [e1, e2, e3] monNames = some (civilM (t / 86400 + 306) - 1) := by
    rw [← hmon]; exact mon_token_idx _ (by omega)
  have hd2' : civilD (t / 86400 + 306) ≤
      daysInMonthN (civilY (t / 86400 + 306)) (civilM (t / 86400 + 306) - 1 + 1) := by
    have : civilM (t / 86400 + 306) - 1 + 1 = civilM (t / 86400 + 306) := by omega
    rw [this]; exact hd2
  rw [hren, hwd, hmon,
    parseValid_fields a b c e1 e2 e3 _ _ _ _ _ hw hm hy1c hy2c hd1 hd2' h24 h59]
  have hmm : civilM (t / 86400 + 306) - 1 + 1 = civilM (t / 86400 + 306) := by omega
  rw [hmm]
  have hday : dayNumOfCivil (civilY (t / 86400 + 306)) (civilM (t / 86400 + 306))
      (civilD (t / 86400 + 306)) = t / 86400 := by
    unfold dayNumOfCivil
    rw [daysFromCivil_civilFromDays]
    omega
  simp only [epochOf]
  rw [hday]
  simp only [Except.ok.injEq]
  omega

/-! ## String-scanning lemmas -/

theorem begMatch_append_self (p rest : List Char) : begMatch p (p ++ rest) = true := by
  induction p with
  | nil => rfl
  | cons c cs ih => simp [begMatch, ih]

theorem begMatch_head_eq (p c : Char) (ps cs : List Char)
    (h : begMatch (p :: ps) (c :: cs) = true) : p = c := by
  simp only [begMatch, Bool.and_eq_true, beq_iff_eq] at h
  exact h.1

theorem begMatch_split (pat l : List Char) (h : begMatch pat l = true) :
    ∃ rest, l = pat ++ rest := by
  induction pat generalizing l with
  | nil => exact ⟨l, rfl⟩
  | cons p ps ih =>
    cases l with
    | nil => simp [begMatch] at h
    | cons c cs =>
      simp only [begMatch, Bool.and_eq_true, beq_iff_eq] at h
      obtain ⟨rest, hrest⟩ := ih cs h.2
      exact ⟨rest, by simp [h.1, hrest]⟩

theorem firstIdxOf_split (l pat : List Char) (i : Nat) (h : firstIdxOf l pat = some i) :
    ∃ a b, l = a ++ pat ++ b ∧ a.length = i := by
  induction l generalizing i with
  | nil =>
    simp only [firstIdxOf] at h
    split at h
    case isTrue hbm =>
      obtain ⟨rest, hrest⟩ := begMatch_split pat [] hbm
      have hpr : pat ++ rest = [] := hrest.symm
      rw [List.append_eq_nil] at hpr
      injection h with hi
      exact ⟨[], [], by simp [hpr.1], by simpa using hi⟩
    case isFalse => exact absurd h (by simp)
  | cons c cs ih =>
    simp only [firstIdxOf] at h
    split at h
    case isTrue hbm =>
      obtain ⟨rest, hrest⟩ := begMatch_split pat (c :: cs) hbm
      injection h with hi
      exact ⟨[], rest, by simpa using hrest, by simpa using hi⟩
    case isFalse =>
      rw [Option.map_eq_some'] at h
      obtain ⟨j, hj, hji⟩ := h
      obtain ⟨a, b, hab, hlen⟩ := ih j hj
      exact ⟨c :: a, b, by simp [hab], by simp [hlen, hji]⟩

theorem containsSub_of_split (a pat b : List Char) :
    containsSub (a ++ pat ++ b) pat = true := by
  induction a with
  | nil =>
    simp only [containsSub, List.nil_append]
    cases hp : pat ++ b with
    | nil =>
      have hpr : pat = [] ∧ b = [] := by rwa [List.append_eq_nil] at hp
      simp [hpr.1, hpr.2, firstIdxOf, begMatch]
    | cons c cs =>
      have hbm : begMatch pat (c :: cs) = true := by
        rw [← hp]; exact begMatch_append_self pat b
      simp [firstIdxOf, hbm]
  | cons c cs ih =>
    simp only [containsSub, List.cons_append, firstIdxOf, List.append_eq]
    split
    · simp
    · simpa [containsSub] using ih

theorem containsSub_mem (l pat : List Char) (h : containsSub l pat = true) :
    ∀ c ∈ pat, c ∈ l := by
  simp only [containsSub, Option.isSome_iff_exists] at h
  obtain ⟨i, hi⟩ := h
  obtain ⟨a, b, hab, _⟩ := firstIdxOf_split l pat i hi
  intro c hc
  simp [hab, hc]

theorem containsSub_false (l pat : List Char) (c : Char) (hc : c ∈ pat) (hl : c ∉ l) :
    containsSub l pat = false := by
  by_contra h
  have hcc : containsSub l pat = true := by
    cases hcase : containsSub l pat
    · exact absurd hcase h
    · rfl
  exact hl (containsSub_mem l pat hcc c hc)

theorem firstIdxOf_clean (pre l : List Char) (p0 : Char) (ps : List Char)
    (hpre : ∀ x ∈ pre, x ≠ p0) (hm : begMatch (p0 :: ps) l = true) :
    firstIdxOf (pre ++ l) (p0 :: ps) = some pre.length := by
  induction pre with
  | nil =>
    cases l with
    | nil => simp [begMatch] at hm
    | cons c cs => simp [firstIdxOf, hm]
  | cons x pre' ih =>
    have hx : x ≠ p0 := hpre x (by simp)
    have hbm : begMatch (p0 :: ps) (x :: (pre' ++ l)) = false := by
      cases hcc : begMatch (p0 :: ps) (x :: (pre' ++ l))
      · rfl
      · exact absurd (begMatch_head_eq p0 x ps (pre' ++ l) hcc).symm hx
    simp only [List.cons_append, firstIdxOf, List.append_eq, hbm, Bool.false_eq_true,
      if_false]
    rw [ih (fun y hy => hpre y (by simp [hy]))]
    simp

theorem replaceAllAux_fuel (f1 : Nat) : ∀ (f2 : Nat) (l old new : List Char),
    l.length ≤ f1 → l.length ≤ f2 →
    replaceAllAux f1 l old new = replaceAllAux f2 l old new := by
  induction f1 with
  | zero =>
    intro f2 l old new h1 _
    have : l = [] := List.length_eq_zero.mp (by omega)
    subst this
    cases f2 <;> rfl
  | succ f ih =>
    intro f2 l old new h1 h2
    cases l with
    | nil => cases f2 <;> rfl
    | cons c rest =>
      cases f2 with
      | zero => simp at h2
      | succ g =>
        simp only [replaceAllAux]
        split
        case isTrue hcond =>
          have hold : old ≠ [] := by
            simp only [Bool.and_eq_true, decide_eq_true_eq] at hcond
            exact hcond.1
          have hlen : (List.drop old.length (c :: rest)).length ≤ rest.length := by
            rw [List.length_drop]
            have : 1 ≤ old.length := by
              cases old with
              | nil => exact absurd rfl hold
              | cons _ _ => simp
            simp only [List.length_cons]
            omega
          rw [ih g _ old new (by simp at h1; omega) (by simp at h2; omega)]
        case isFalse =>
          rw [ih g rest old new (by simp at h1; omega) (by simp at h2; omega)]

theorem replaceAll_cons_skip (c : Char) (l old new : List Char)
    (hc : c.isDigit = false) (hold : headDigit old = true) :
    replaceAll (c :: l) old new = c :: replaceAll l old new := by
  cases old with
  | nil => simp [headDigit] at hold
  | cons d os =>
    have hd : d.isDigit = true := hold
    have hbm : begMatch (d :: os) (c :: l) = false := by
      cases hcc : begMatch (d :: os) (c :: l)
      · rfl
      · have := begMatch_head_eq d c os l hcc
        rw [this, hc] at hd
        exact absurd hd (by simp)
    simp only [replaceAll, List.length_cons, replaceAllAux, hbm, Bool.and_false,
      Bool.false_eq_true, if_false]

theorem replaceAll_digitFree (l old new : List Char) (hl : DigitFree l)
    (hold : headDigit old = true) : replaceAll l old new = l := by
  induction l with
  | nil => rfl
  | cons c rest ih =>
    rw [replaceAll_cons_skip c rest old new (hl c (by simp)) hold]
    rw [ih (fun x hx => hl x (by simp [hx]))]

theorem replaceAll_append_skip (pre l old new : List Char) (hpre : DigitFree pre)
    (hold : headDigit old = true) :
    replaceAll (pre ++ l) old new = pre ++ replaceAll l old new := by
  induction pre with
  | nil => simp
  | cons c rest ih =>
    simp only [List.cons_append]
    rw [replaceAll_cons_skip c (rest ++ l) old new (hpre c (by simp)) hold]
    rw [ih (fun x hx => hpre x (by simp [hx]))]

theorem replaceAll_match (old rest new : List Char) (h : old ≠ []) :
    replaceAll (old ++ rest) old new = new ++ replaceAll rest old new := by
  cases old with
  | nil => exact absurd rfl h
  | cons d os =>
    unfold replaceAll
    have hlen : ((d :: os) ++ rest).length = (os.length + rest.length) + 1 := by
      simp only [List.length_append, List.length_cons]
      omega
    rw [hlen]
    simp only [List.cons_append, replaceAllAux]
    simp only [List.append_eq]
    have hbm : begMatch (d :: os) (d :: (os ++ rest)) = true := by
      have := begMatch_append_self (d :: os) rest
      simpa using this
    have hcond : (decide ((d :: os) ≠ []) && begMatch (d :: os) (d :: (os ++ rest))) =
        true := by
      simp [hbm]
    rw [if_pos hcond]
    have hdrop : List.drop (d :: os).length (d :: (os ++ rest)) = rest := by
      have heq : d :: (os ++ rest) = (d :: os) ++ rest := by simp
      rw [heq, List.drop_left]
    rw [hdrop]
    congr 1
    exact replaceAllAux_fuel _ _ rest (d :: os) new (by omega) (by omega)

theorem findTimesAux_fuel (f1 : Nat) : ∀ (f2 : Nat) (l : List Char),
    l.length ≤ f1 → l.length ≤ f2 → findTimesAux f1 l = findTimesAux f2 l := by
  induction f1 with
  | zero =>
    intro f2 l h1 _
    have : l = [] := List.length_eq_zero.mp (by omega)
    subst this
    cases f2 <;> rfl
  | succ f ih =>
    intro f2 l h1 h2
    cases l with
    | nil => cases f2 <;> rfl
    | cons c rest =>
      cases f2 with
      | zero => simp at h2
      | succ g =>
        simp only [findTimesAux]
        split
        · congr 1
          have hlen : (List.drop 20 (c :: rest)).length ≤ rest.length := by
            rw [List.length_drop]
            simp only [List.length_cons]
            omega
          exact ih g _ (by simp only [List.length_cons] at h1; omega)
            (by simp only [List.length_cons] at h2; omega)
        · exact ih g rest (by simp at h1; omega) (by simp at h2; omega)

theorem matchSpec_head_digit (c : Char) (l : List Char)
    (h : matchSpec isoSpec (c :: l) = true) : c.isDigit = true := by
  simp only [isoSpec, matchSpec, Bool.and_eq_true] at h
  exact h.1

theorem findTimes_cons_skip (c : Char) (l : List Char) (hc : c.isDigit = false) :
    findTimes (c :: l) = findTimes l := by
  have hm : matchSpec isoSpec (c :: l) = false := by
    cases hcc : matchSpec isoSpec (c :: l)
    · rfl
    · rw [matchSpec_head_digit c l hcc] at hc
      exact absurd hc (by simp)
  simp only [findTimes, List.length_cons, findTimesAux, hm, Bool.false_eq_true, if_false]

theorem findTimes_digitFree (l : List Char) (hl : DigitFree l) : findTimes l = [] := by
  induction l with
  | nil => rfl
  | cons c rest ih =>
    rw [findTimes_cons_skip c rest (hl c (by simp))]
    exact ih (fun x hx => hl x (by simp [hx]))

theorem findTimes_append_skip (pre l : List Char) (hpre : DigitFree pre) :
    findTimes (pre ++ l) = findTimes l := by
  induction pre with
  | nil => simp
  | cons c rest ih =>
    simp only [List.cons_append]
    rw [findTimes_cons_skip c (rest ++ l) (hpre c (by simp))]
    exact ih (fun x hx => hpre x (by simp [hx]))

theorem findTimesAux_succ (fuel : Nat) (c : Char) (rest : List Char) :
    findTimesAux (fuel + 1) (c :: rest) =
      if matchSpec isoSpec (c :: rest) = true then
        (c :: rest).take 20 :: findTimesAux fuel ((c :: rest).drop 20)
      else findTimesAux fuel rest := by
  simp only [findTimesAux]

theorem findTimes_match20 (p rest : List Char) (hp : p.length = 20)
    (hm : matchSpec isoSpec (p ++ rest) = true) :
    findTimes (p ++ rest) = p :: findTimes rest := by
  cases p with
  | nil => simp at hp
  | cons c0 ps =>
    unfold findTimes
    have hlen : ((c0 :: ps) ++ rest).length = (rest.length + 19) + 1 := by
      simp only [List.length_append, List.length_cons] at hp ⊢
      omega
    rw [hlen]
    simp only [List.cons_append] at hm ⊢
    rw [findTimesAux_succ]
    rw [if_pos hm]
    have hcons : c0 :: (ps ++ rest) = (c0 :: ps) ++ rest := by simp
    have htake : (c0 :: (ps ++ rest)).take 20 = c0 :: ps := by
      rw [hcons, ← hp, List.take_left]
    have hdrop : (c0 :: (ps ++ rest)).drop 20 = rest := by
      rw [hcons, ← hp, List.drop_left]
    rw [htake, hdrop]
    congr 1
    exact findTimesAux_fuel _ _ rest (by omega) (by omega)

theorem renderISO_length (t : Nat) : (renderISO t).length = 20 := by
  simp [renderISO, pad4, pad2]

theorem matchSpec_renderISO (t : Nat) (rest : List Char) :
    matchSpec isoSpec (renderISO t ++ rest) = true := by
  simp [renderISO, pad4, pad2, isoSpec, List.cons_append, matchSpec, dCh_isDigit]

theorem findTimes_render_cons (t : Nat) (rest : List Char) :
    findTimes (renderISO t ++ rest) = renderISO t :: findTimes rest :=
  findTimes_match20 (renderISO t) rest (renderISO_length t) (matchSpec_renderISO t rest)

theorem headDigit_renderISO_append (t : Nat) (X : List Char) :
    headDigit (renderISO t ++ X) = true := by
  simp [renderISO, pad4, List.cons_append, headDigit, dCh_isDigit]

theorem headDigit_renderISO (t : Nat) : headDigit (renderISO t) = true := by
  simp [renderISO, pad4, List.cons_append, headDigit, dCh_isDigit]

theorem headDigit_renderValid (t : Nat) : headDigit (renderValidFmt t) = true := by
  simp [renderValidFmt, pad2, List.cons_append, headDigit, dCh_isDigit]

theorem getD_cases (l : List (List Char)) (k : Nat) :
    l.getD k [] ∈ l ∨ l.getD k [] = ([] : List Char) := by
  by_cases hk : k < l.length
  · left
    rw [List.getD_eq_getElem l [] hk]
    exact List.getElem_mem hk
  · right
    exact List.getD_eq_default l [] (by omega)

theorem token_chars (tok : List Char) (c : Char)
    (h : tok ∈ wdNames ∨ tok ∈ monNames) (hc : c ∈ tok) :
    c ≠ 'V' ∧ c ≠ 'R' ∧ c.isDigit = false := by
  rcases h with h | h
  · fin_cases h <;>
      (simp only [List.mem_cons, List.not_mem_nil, or_false] at hc ;
        rcases hc with rfl | rfl | rfl <;> exact ⟨by decide, by decide, by decide⟩)
  · fin_cases h <;>
      (simp only [List.mem_cons, List.not_mem_nil, or_false] at hc ;
        rcases hc with rfl | rfl | rfl <;> exact ⟨by decide, by decide, by decide⟩)

theorem mem_renderISO_chars (t : Nat) (c : Char) (h : c ∈ renderISO t) :
    c.isDigit = true ∨ c = '-' ∨ c = ':' ∨ c = 'T' ∨ c = 'Z' := by
  simp only [renderISO, pad4, pad2, civilFromDaysN, List.cons_append, List.nil_append,
    List.mem_cons, List.mem_append, List.mem_singleton, List.not_mem_nil, or_false] at h
  repeat' rcases h with h | h
  all_goals first
    | (left; exact dCh_isDigit _)
    | (right; simp)

theorem mem_renderValid_chars (t : Nat) (c : Char) (h : c ∈ renderValidFmt t) :
    c ≠ 'V' ∧ c ≠ 'R' := by
  simp only [renderValidFmt, pad2, pad4, civilFromDaysN, List.cons_append,
    List.nil_append, List.mem_cons, List.mem_append, List.not_mem_nil, or_false] at h
  repeat' rcases h with h | h
  all_goals first
    | (exact ⟨by decide, by decide⟩)
    | (exact ⟨dCh_ne_of_not_digit _ _ (by decide),
        dCh_ne_of_not_digit _ _ (by decide)⟩)
    | (rcases getD_cases wdNames (t / 86400 % 7) with hm | hm
       · exact ⟨(token_chars _ c (Or.inl hm) h).1, (token_chars _ c (Or.inl hm) h).2.1⟩
       · rw [hm] at h; simp at h)
    | (rcases getD_cases monNames (civilM (t / 86400 + 306) - 1) with hm | hm
       · exact ⟨(token_chars _ c (Or.inr hm) h).1, (token_chars _ c (Or.inr hm) h).2.1⟩
       · rw [hm] at h; simp at h)

/-! ## Shift-time round-trip lemmas -/

theorem notV_ISO (t : Nat) : 'V' ∉ renderISO t := by
  intro h
  rcases mem_renderISO_chars t 'V' h with h | h | h | h | h <;> simp at h

theorem notL_ISO (t : Nat) : 'L' ∉ renderISO t := by
  intro h
  rcases mem_renderISO_chars t 'L' h with h | h | h | h | h <;> simp at h

theorem containsSub_append_left (l pat X : List Char) (h : containsSub l pat = true) :
    containsSub (l ++ X) pat = true := by
  simp only [containsSub, Option.isSome_iff_exists] at h
  obtain ⟨i, hi⟩ := h
  obtain ⟨a, b, hab, _⟩ := firstIdxOf_split l pat i hi
  rw [hab]
  have : a ++ pat ++ b ++ X = a ++ pat ++ (b ++ X) := by simp
  rw [this]
  exact containsSub_of_split a pat (b ++ X)

theorem shiftDT_ok (t ts : Nat) (S : Int) (h : (ts : Int) = (t : Int) + S)
    (hts : ts ≤ maxEpochN) : shiftDT t S = .ok ts := by
  simp only [shiftDT]
  rw [if_pos ⟨by omega, by omega⟩]
  congr 1
  omega

theorem shift_tr (pre suf : List Char) (t1 t2 t1s t2s : Nat) (S : Int)
    (h1 : (t1s : Int) = (t1 : Int) + S) (h2 : (t2s : Int) = (t2 : Int) + S)
    (hpre : DigitFree pre) (hsuf : DigitFree suf)
    (hVp : 'V' ∉ pre) (hVs : 'V' ∉ suf) (hLp : 'L' ∉ pre) (hLs : 'L' ∉ suf)
    (htr : containsSub pre trKey = true)
    (ha : EpochOK t1) (hb : EpochOK t2) (has : EpochOK t1s) (hbs : EpochOK t2s) :
    shift_time (pre ++ (renderISO t1 ++ ' ' :: (renderISO t2 ++ suf))) S =
      .ok (pre ++ (renderISO t1s ++ ' ' :: (renderISO t2s ++ suf))) := by
  have hVline : 'V' ∉ pre ++ (renderISO t1 ++ ' ' :: (renderISO t2 ++ suf)) := by
    intro hm
    simp only [List.mem_append, List.mem_cons] at hm
    rcases hm with hm | hm | hm | hm | hm
    · exact hVp hm
    · exact notV_ISO t1 hm
    · simp at hm
    · exact notV_ISO t2 hm
    · exact hVs hm
  have hLline : 'L' ∉ pre ++ (renderISO t1 ++ ' ' :: (renderISO t2 ++ suf)) := by
    intro hm
    simp only [List.mem_append, List.mem_cons] at hm
    rcases hm with hm | hm | hm | hm | hm
    · exact hLp hm
    · exact notL_ISO t1 hm
    · simp at hm
    · exact notL_ISO t2 hm
    · exact hLs hm
  have hval : containsSub (pre ++ (renderISO t1 ++ ' ' :: (renderISO t2 ++ suf)))
      validKey = false :=
    containsSub_false _ _ 'V' (by simp [validKey]) hVline
  have hlsr : containsSub (pre ++ (renderISO t1 ++ ' ' :: (renderISO t2 ++ suf)))
      lsrKey = false :=
    containsSub_false _ _ 'L' (by simp [lsrKey]) hLline
  have htr2 : containsSub (pre ++ (renderISO t1 ++ ' ' :: (renderISO t2 ++ suf)))
      trKey = true := by
    obtain ⟨i, hi⟩ := Option.isSome_iff_exists.mp htr
    obtain ⟨a, b, hab, _⟩ := firstIdxOf_split pre trKey i hi
    rw [hab]
    have : a ++ trKey ++ b ++ (renderISO t1 ++ ' ' :: (renderISO t2 ++ suf)) =
        a ++ trKey ++ (b ++ (renderISO t1 ++ ' ' :: (renderISO t2 ++ suf))) := by simp
    rw [this]
    exact containsSub_of_split _ _ _
  have hfind : findTimes (pre ++ (renderISO t1 ++ ' ' :: (renderISO t2 ++ suf))) =
      [renderISO t1, renderISO t2] := by
    rw [findTimes_append_skip pre _ hpre, findTimes_render_cons,
      findTimes_cons_skip ' ' _ (by decide), findTimes_render_cons,
      findTimes_digitFree suf hsuf]
  have hp1 : parseISO (renderISO t1) = .ok t1 :=
    parseISO_renderISO t1 (by have := ha.1; omega) ha.2.1
  have hp2 : parseISO (renderISO t2) = .ok t2 :=
    parseISO_renderISO t2 (by have := hb.1; omega) hb.2.1
  have hs1 : shiftDT t1 S = .ok t1s := shiftDT_ok t1 t1s S h1 has.2.2
  have hs2 : shiftDT t2 S = .ok t2s := shiftDT_ok t2 t2s S h2 hbs.2.2
  have hne : renderISO t1 ++ ' ' :: renderISO t2 ≠ ([] : List Char) := by
    intro hc
    have := congrArg List.length hc
    simp [renderISO_length] at this
  have hrepl : replaceAll (pre ++ (renderISO t1 ++ ' ' :: (renderISO t2 ++ suf)))
      (renderISO t1 ++ ' ' :: renderISO t2) (renderISO t1s ++ ' ' :: renderISO t2s) =
      pre ++ (renderISO t1s ++ ' ' :: (renderISO t2s ++ suf)) := by
    have hassoc : renderISO t1 ++ ' ' :: (renderISO t2 ++ suf) =
        (renderISO t1 ++ ' ' :: renderISO t2) ++ suf := by simp
    rw [hassoc]
    rw [replaceAll_append_skip pre _ _ _ hpre (headDigit_renderISO_append t1 _)]
    rw [replaceAll_match _ _ _ hne]
    rw [replaceAll_digitFree suf _ _ hsuf (headDigit_renderISO_append t1 _)]
    simp
  simp only [shift_time, hval, htr2, hlsr, hfind, Bool.false_eq_true, if_false, if_true,
    hp1, hs1, hp2, hs2, hrepl, bind, Except.bind, pure, Except.pure]

theorem notg_ISO (t : Nat) : 'g' ∉ renderISO t := by
  intro h
  rcases mem_renderISO_chars t 'g' h with h | h | h | h | h <;> simp at h

theorem digitFree_append (a b : List Char) (ha : DigitFree a) (hb : DigitFree b) :
    DigitFree (a ++ b) := by
  intro c hc
  rcases List.mem_append.mp hc with h | h
  · exact ha c h
  · exact hb c h

theorem renderValid_ne_nil (t : Nat) : renderValidFmt t ≠ [] := by
  simp [renderValidFmt, pad2]

theorem shift_lsr (pre suf : List Char) (t ts : Nat) (S : Int)
    (h : (ts : Int) = (t : Int) + S)
    (hpre : DigitFree pre) (hsuf : DigitFree suf)
    (hVp : 'V' ∉ pre) (hVs : 'V' ∉ suf) (hgp : 'g' ∉ pre) (hgs : 'g' ∉ suf)
    (hlsr : containsSub pre lsrKey = true)
    (ha : EpochOK t) (has : EpochOK ts) :
    shift_time (pre ++ (renderISO t ++ suf)) S = .ok (pre ++ (renderISO ts ++ suf)) := by
  have hVline : 'V' ∉ pre ++ (renderISO t ++ suf) := by
    intro hm
    simp only [List.mem_append] at hm
    rcases hm with hm | hm | hm
    · exact hVp hm
    · exact notV_ISO t hm
    · exact hVs hm
  have hgline : 'g' ∉ pre ++ (renderISO t ++ suf) := by
    intro hm
    simp only [List.mem_append] at hm
    rcases hm with hm | hm | hm
    · exact hgp hm
    · exact notg_ISO t hm
    · exact hgs hm
  have hval : containsSub (pre ++ (renderISO t ++ suf)) validKey = false :=
    containsSub_false _ _ 'V' (by simp [validKey]) hVline
  have htr : containsSub (pre ++ (renderISO t ++ suf)) trKey = false :=
    containsSub_false _ _ 'g' (by simp [trKey]) hgline
  have hlsr2 : containsSub (pre ++ (renderISO t ++ suf)) lsrKey = true :=
    containsSub_append_left pre lsrKey _ hlsr
  have hfind : findTimes (pre ++ (renderISO t ++ suf)) = [renderISO t] := by
    rw [findTimes_append_skip pre _ hpre, findTimes_render_cons,
      findTimes_digitFree suf hsuf]
  have hp : parseISO (renderISO t) = .ok t :=
    parseISO_renderISO t (by have := ha.1; omega) ha.2.1
  have hs : shiftDT t S = .ok ts := shiftDT_ok t ts S h has.2.2
  have hrepl : replaceAll (pre ++ (renderISO t ++ suf)) (renderISO t) (renderISO ts) =
      pre ++ (renderISO ts ++ suf) := by
    rw [replaceAll_append_skip pre _ _ _ hpre (headDigit_renderISO t),
      replaceAll_match _ _ _ (by
        intro hc
        have := congrArg List.length hc
        simp [renderISO_length] at this),
      replaceAll_digitFree suf _ _ hsuf (headDigit_renderISO t)]
  simp only [shift_time, hval, htr, hlsr2, hfind, Bool.false_eq_true, if_false, if_true,
    hp, hs, hrepl, bind, Except.bind, pure, Except.pure]

theorem shift_valid (pre : List Char) (t ts : Nat) (S : Int)
    (h : (ts : Int) = (t : Int) + S) (ht60 : t % 60 = 0)
    (hpre : DigitFree pre) (hVp : 'V' ∉ pre) (hRp : 'R' ∉ pre)
    (ha : EpochOK t) (has : EpochOK ts) :
    shift_time (pre ++ (validKey ++ (' ' :: (renderValidFmt t ++ ['\n'])))) S =
      .ok (pre ++ (validKey ++ (' ' :: (renderValidFmt ts ++ ['\n'])))) := by
  have hRline : 'R' ∉ pre ++ (validKey ++ (' ' :: (renderValidFmt t ++ ['\n']))) := by
    intro hm
    simp only [List.mem_append, List.mem_cons, validKey] at hm
    rcases hm with hm | hm | hm | hm | hm | hm | hm | hm | hm | hm
    · exact hRp hm
    all_goals first
      | simp at hm
      | exact (mem_renderValid_chars t 'R' hm).2 rfl
  have htr : containsSub (pre ++ (validKey ++ (' ' :: (renderValidFmt t ++ ['\n']))))
      trKey = false :=
    containsSub_false _ _ 'R' (by simp [trKey]) hRline
  have hlsr : containsSub (pre ++ (validKey ++ (' ' :: (renderValidFmt t ++ ['\n']))))
      lsrKey = false :=
    containsSub_false _ _ 'R' (by simp [lsrKey]) hRline
  have hvalcontains : containsSub
      (pre ++ (validKey ++ (' ' :: (renderValidFmt t ++ ['\n'])))) validKey = true := by
    have : pre ++ (validKey ++ (' ' :: (renderValidFmt t ++ ['\n']))) =
        pre ++ validKey ++ (' ' :: (renderValidFmt t ++ ['\n'])) := by simp
    rw [this]
    exact containsSub_of_split pre validKey _
  have hidx : firstIdxOf (pre ++ (validKey ++ (' ' :: (renderValidFmt t ++ ['\n']))))
      validKey = some pre.length := by
    exact firstIdxOf_clean pre _ 'V' ['a', 'l', 'i', 'd', ':']
      (fun x hx he => hVp (he ▸ hx))
      (begMatch_append_self validKey _)
  have hdrop : (pre ++ (validKey ++ (' ' :: (renderValidFmt t ++ ['\n'])))).drop
      (pre.length + 7) = renderValidFmt t ++ ['\n'] := by
    have hsplit : pre ++ (validKey ++ (' ' :: (renderValidFmt t ++ ['\n']))) =
        (pre ++ validKey ++ [' ']) ++ (renderValidFmt t ++ ['\n']) := by simp
    have hlen : (pre ++ validKey ++ [' ']).length = pre.length + 7 := by
      simp [validKey]
    rw [hsplit, ← hlen, List.drop_left]
  have hextract : ((pre ++ (validKey ++ (' ' :: (renderValidFmt t ++ ['\n'])))).drop
      (pre.length + 7)).dropLast = renderValidFmt t := by
    rw [hdrop, List.dropLast_concat]
  have hparse : parseValidFmt (renderValidFmt t) = .ok t := by
    rw [parseValid_renderValid t (by have := ha.1; omega) ha.2.1]
    congr 1
    omega
  have hs : shiftDT t S = .ok ts := shiftDT_ok t ts S h has.2.2
  have hrepl : replaceAll (pre ++ (validKey ++ (' ' :: (renderValidFmt t ++ ['\n']))))
      (renderValidFmt t) (renderValidFmt ts) =
      pre ++ (validKey ++ (' ' :: (renderValidFmt ts ++ ['\n']))) := by
    have hsplit : pre ++ (validKey ++ (' ' :: (renderValidFmt t ++ ['\n']))) =
        (pre ++ validKey ++ [' ']) ++ (renderValidFmt t ++ ['\n']) := by simp
    rw [hsplit]
    have hdfV : DigitFree validKey := by intro c hc; fin_cases hc <;> rfl
    have hdfSp : DigitFree [' '] := by intro c hc; fin_cases hc <;> rfl
    have hdfNl : DigitFree ['\n'] := by intro c hc; fin_cases hc <;> rfl
    rw [replaceAll_append_skip _ _ _ _
      (digitFree_append _ _ (digitFree_append _ _ hpre hdfV) hdfSp)
      (headDigit_renderValid t)]
    rw [replaceAll_match _ _ _ (renderValid_ne_nil t)]
    rw [replaceAll_digitFree _ _ _ hdfNl (headDigit_renderValid t)]
    simp
  simp only [shift_time, hvalcontains, htr, hlsr, hidx, Option.getD_some, hextract,
    Bool.false_eq_true, if_false, if_true, hparse, hs, hrepl, bind, Except.bind, pure,
    Except.pure]

/-- C7 (amended): for every line containing one well-formed recognized
timestamp encoding in the sense of `RoundTripLine` — which for the
minute-precision `Valid:` shape requires the shift and the instant to be
whole minutes, and in all shapes requires the shifted instants to stay
representable — applying `shift_time` with `+S` and then `-S` reproduces
the original line exactly. -/
theorem claim_C7_roundtrip (line : List Char) (S : Int) (h : RoundTripLine line S) :
    Except.bind (shift_time line S) (fun l2 => shift_time l2 (-S)) = .ok line := by
  rcases h with ⟨pre, t, ts, hline, hts, ht60, hS60, hpre, hV, hR, ha, has⟩ |
    ⟨pre, suf, t1, t2, t1s, t2s, hline, h1, h2, hpre, hsuf, hVp, hVs, hLp, hLs, htr,
      ha, hb, has, hbs⟩ |
    ⟨pre, suf, t, ts, hline, hts, hpre, hsuf, hVp, hVs, hgp, hgs, hlsr, ha, has⟩
  · subst hline
    rw [shift_valid pre t ts S hts ht60 hpre hV hR ha has]
    simp only [Except.bind]
    exact shift_valid pre ts t (-S) (by omega) (by omega) hpre hV hR has ha
  · subst hline
    rw [shift_tr pre suf t1 t2 t1s t2s S h1 h2 hpre hsuf hVp hVs hLp hLs htr
      ha hb has hbs]
    simp only [Except.bind]
    exact shift_tr pre suf t1s t2s t1 t2 (-S) (by omega) (by omega) hpre hsuf
      hVp hVs hLp hLs htr has hbs ha hb
  · subst hline
    rw [shift_lsr pre suf t ts S hts hpre hsuf hVp hVs hgp hgs hlsr ha has]
    simp only [Except.bind]
    exact shift_lsr pre suf ts t (-S) (by omega) hpre hsuf hVp hVs hgp hgs hlsr has ha

theorem claim_C7_roundtrip_witness :
    Except.bind (shift_time ("TimeRange: ".toList ++
        (renderISO (epochOf 2023 6 7 21 45 0) ++ ' ' ::
          (renderISO (epochOf 2023 6 7 21 55 0) ++ ['\n']))) 7261)
      (fun l2 => shift_time l2 (-7261)) =
      .ok ("TimeRange: ".toList ++ (renderISO (epochOf 2023 6 7 21 45 0) ++ ' ' ::
        (renderISO (epochOf 2023 6 7 21 55 0) ++ ['\n']))) := by
  apply claim_C7_roundtrip _ 7261
  unfold RoundTripLine
  refine Or.inr (Or.inl ⟨"TimeRange: ".toList, ['\n'], epochOf 2023 6 7 21 45 0,
    epochOf 2023 6 7 21 55 0, epochOf 2023 6 7 23 46 1, epochOf 2023 6 7 23 56 1,
    rfl, by decide, by decide, ?_, ?_, by decide, by decide, by decide, by decide,
    by decide, ?_, ?_, ?_, ?_⟩)
  · show ∀ c ∈ "TimeRange: ".toList, c.isDigit = false
    decide
  · show ∀ c ∈ ['\n'], c.isDigit = false
    decide
  · exact ⟨by decide, by decide, by decide⟩
  · exact ⟨by decide, by decide, by decide⟩
  · exact ⟨by decide, by decide, by decide⟩
  · exact ⟨by decide, by decide, by decide⟩

theorem claim_C7_counterexample :
    Except.bind (shift_time "Valid: 21:45Z Wed Jun 07 2023\n".toList 30)
      (fun l2 => shift_time l2 (-30)) ≠
      Except.ok "Valid: 21:45Z Wed Jun 07 2023\n".toList := by
  intro h
  have he : Except.bind (shift_time "Valid: 21:45Z Wed Jun 07 2023\n".toList 30)
      (fun l2 => shift_time l2 (-30)) =
      Except.ok "Valid: 21:44Z Wed Jun 07 2023\n".toList := by rfl
  rw [he] at h
  injection h with h2
  have : "Valid: 21:44Z Wed Jun 07 2023\n".toList ≠
      "Valid: 21:45Z Wed Jun 07 2023\n".toList := by decide
  exact this h2

/-! ## Artifact-processing lemmas (C3 and C10) -/

theorem containsSub_of_front (line a b : List Char) (h : containsSub line (a ++ b) = true) :
    containsSub line a = true := by
  simp only [containsSub, Option.isSome_iff_exists] at h
  obtain ⟨i, hi⟩ := h
  obtain ⟨x, y, hxy, _⟩ := firstIdxOf_split line (a ++ b) i hi
  rw [hxy]
  have : x ++ (a ++ b) ++ y = x ++ a ++ (b ++ y) := by simp
  rw [this]
  exact containsSub_of_split x a (b ++ y)

theorem trKey_gives_timeKey (line : List Char) (h : containsSub line trKey = true) :
    containsSub line timeKey = true := by
  have : trKey = timeKey ++ ['R', 'a', 'n', 'g', 'e'] := rfl
  rw [this] at h
  exact containsSub_of_front line timeKey _ h

theorem validKey_gives_validWord (line : List Char)
    (h : containsSub line validKey = true) : containsSub line validWord = true := by
  have : validKey = validWord ++ [':'] := rfl
  rw [this] at h
  exact containsSub_of_front line validWord _ h

theorem shiftLine_keyword_free (S : Int) (line : List Char)
    (h1 : containsSub line validWord = false) (h2 : containsSub line timeKey = false) :
    shiftLine (some S) line = .ok line := by
  have h3 : containsSub line trKey = false := by
    cases hcc : containsSub line trKey
    · rfl
    · rw [trKey_gives_timeKey line hcc] at h2
      exact absurd h2 (by simp)
  simp [shiftLine, lineKeyword, h1, h2, h3, pure, Except.pure]

theorem writeLinesAux_ok (S : Int) (ls : List (List Char))
    (h : ∀ l ∈ ls, shiftLine (some S) l = .ok l) :
    writeLinesAux (some S) ls = .ok ls := by
  induction ls with
  | nil => rfl
  | cons l rest ih =>
    simp only [writeLinesAux, h l (by simp), bind, Except.bind,
      ih (fun x hx => h x (by simp [hx]))]
    rfl

theorem writeLinesAux_err (S : Int) (good : List (List Char)) (mal : List Char)
    (more : List (List Char)) (e : PyErr)
    (hg : ∀ l ∈ good, shiftLine (some S) l = .ok l)
    (hm : shiftLine (some S) mal = .error e) :
    writeLinesAux (some S) (good ++ mal :: more) = .error e := by
  induction good with
  | nil => simp only [List.nil_append, writeLinesAux, hm, bind, Except.bind]
  | cons l rest ih =>
    simp only [List.cons_append, writeLinesAux, hg l (by simp), bind, Except.bind,
      List.append_eq, ih (fun x hx => hg x (by simp [hx]))]

theorem processArtifact_caught (S : Int) (art : List (List Char)) (e : PyErr)
    (hw : writeLinesAux (some S) art = .error e) (hc : pyCaught e = true) :
    processArtifact (some S) art = .ok [errLine e] := by
  simp [processArtifact, hw, hc]

theorem processArtifact_uncaught (S : Int) (art : List (List Char)) (e : PyErr)
    (hw : writeLinesAux (some S) art = .error e) (hc : pyCaught e = false) :
    processArtifact (some S) art = .error e := by
  simp [processArtifact, hw, hc]

theorem shift_placefiles_cons_ok (S : Int) (a : List (List Char))
    (rest : List (List (List Char))) (o : List (List Char))
    (h : processArtifact (some S) a = .ok o) :
    shift_placefiles (some S) (a :: rest) =
      ((o :: (shift_placefiles (some S) rest).1), (shift_placefiles (some S) rest).2) := by
  simp [shift_placefiles, h]

theorem shift_placefiles_cons_err (S : Int) (a : List (List Char))
    (rest : List (List (List Char))) (e : PyErr)
    (h : processArtifact (some S) a = .error e) :
    shift_placefiles (some S) (a :: rest) = ([], some e) := by
  simp [shift_placefiles, h]

theorem shift_time_valid_fails (line : List Char) (S : Int) (e : PyErr)
    (hvk : containsSub line validKey = true)
    (hp : parseValidFmt ((line.drop ((firstIdxOf line validKey).getD 0 + 7)).dropLast) =
      .error e) :
    shift_time line S = .error e := by
  simp only [shift_time, hvk, if_true, hp, bind, Except.bind]

theorem containsSub_of_back (line a b : List Char) (h : containsSub line (a ++ b) = true) :
    containsSub line b = true := by
  simp only [containsSub, Option.isSome_iff_exists] at h
  obtain ⟨i, hi⟩ := h
  obtain ⟨x, y, hxy, _⟩ := firstIdxOf_split line (a ++ b) i hi
  rw [hxy]
  have : x ++ (a ++ b) ++ y = (x ++ a) ++ b ++ y := by simp
  rw [this]
  exact containsSub_of_split (x ++ a) b y

theorem lsrKey_gives_timeKey (line : List Char) (h : containsSub line lsrKey = true) :
    containsSub line timeKey = true := by
  have : lsrKey = ['L', 'S', 'R', ' '] ++ timeKey := rfl
  rw [this] at h
  exact containsSub_of_back line _ timeKey h

/-- C3 (amended): lines without a time keyword pass through `shift_placefiles`
unchanged, and a malformed timestamp is not fatal for the run — the
per-artifact `try/except` catches the `ValueError` — but the isolation is
per artifact, not per line: the faulty artifact's entire output is replaced
by the single diagnostic line, its already-shifted lines included, while the
remaining artifacts are still processed. -/
theorem claim_C3_artifact_faults (S : Int) (good : List (List Char)) (mal : List Char)
    (more : List (List Char)) (arts : List (List (List Char)))
    (hg : ∀ l ∈ good, containsSub l validWord = false ∧ containsSub l timeKey = false)
    (hvk : containsSub mal validKey = true)
    (hp : parseValidFmt ((mal.drop ((firstIdxOf mal validKey).getD 0 + 7)).dropLast) =
      .error .valueError) :
    (∀ l ∈ good, shiftLine (some S) l = .ok l) ∧
    processArtifact (some S) (good ++ mal :: more) = .ok [errLine .valueError] ∧
    shift_placefiles (some S) ((good ++ mal :: more) :: arts) =
      ([errLine .valueError] :: (shift_placefiles (some S) arts).1,
        (shift_placefiles (some S) arts).2) := by
  have hok : ∀ l ∈ good, shiftLine (some S) l = .ok l :=
    fun l hl => shiftLine_keyword_free S l (hg l hl).1 (hg l hl).2
  have hmal : shiftLine (some S) mal = .error .valueError := by
    have hkw : lineKeyword mal = true := by
      simp [lineKeyword, validKey_gives_validWord mal hvk]
    simp only [shiftLine, hkw, if_true]
    exact shift_time_valid_fails mal S .valueError hvk hp
  have hart : processArtifact (some S) (good ++ mal :: more) = .ok [errLine .valueError] :=
    processArtifact_caught S _ .valueError
      (writeLinesAux_err S good mal more .valueError hok hmal) rfl
  exact ⟨hok, hart, shift_placefiles_cons_ok S _ arts _ hart⟩

/-- C10 (amended): `shift_time` raises `IndexError` exactly when the regex
match list is indexed past its length.  Provided any `Valid:` section is
absent or parses and shifts without error, a line that (a) contains
`TimeRange` and yields no regex timestamp match, or exactly one match which
itself parses and shifts without error so that `regex[1]` is indexed, or
(b) lacks `TimeRange` but contains `LSR Time` and yields no match, makes
`shift_time` raise `IndexError`; because `shift_placefiles` catches only
`IOError`, `ValueError` and `KeyError`, that exception escapes entirely and
processing of all remaining artifacts is aborted.  The original claim's
"fewer than two parseable timestamps" is wrong: a `TimeRange` line whose
sole regex match is unparseable raises `ValueError` at `strptime` before
`regex[1]` is ever reached, which the per-artifact handler does catch, and
processing continues (see the counterexample). -/
theorem claim_C10_uncaught (line : List Char) (S : Int)
    (hval : containsSub line validKey = false ∨
      (containsSub line validKey = true ∧ ∃ t ts,
        parseValidFmt ((line.drop ((firstIdxOf line validKey).getD 0 + 7)).dropLast) =
          .ok t ∧ shiftDT t S = .ok ts))
    (hcase : (containsSub line trKey = true ∧
        (findTimes line = [] ∨
          ∃ r0 t ts, findTimes line = [r0] ∧ parseISO r0 = .ok t ∧ shiftDT t S = .ok ts)) ∨
      (containsSub line trKey = false ∧ containsSub line lsrKey = true ∧
        findTimes line = [])) :
    shift_time line S = .error .indexError ∧
    ∀ rest, shift_placefiles (some S) ([line] :: rest) = ([], some .indexError) := by
  have hkw : lineKeyword line = true := by
    rcases hcase with ⟨htr, _⟩ | ⟨_, hlsr, _⟩
    · simp [lineKeyword, trKey_gives_timeKey line htr]
    · simp [lineKeyword, lsrKey_gives_timeKey line hlsr]
  have hst : shift_time line S = .error .indexError := by
    rcases hcase with ⟨htr, hft⟩ | ⟨htr, hlsr, hft⟩
    · rcases hval with hv | ⟨hv, t, ts, hp, hs⟩
      · rcases hft with hft | ⟨r0, t0, t0s, hft, hp0, hs0⟩
        · simp only [shift_time, hv, Bool.false_eq_true, if_false, htr, if_true, hft,
            bind, Except.bind, throw, throwThe, MonadExceptOf.throw, pure, Except.pure]
        · simp only [shift_time, hv, Bool.false_eq_true, if_false, htr, if_true, hft,
            hp0, hs0, bind, Except.bind, throw, throwThe, MonadExceptOf.throw, pure,
            Except.pure]
      · rcases hft with hft | ⟨r0, t0, t0s, hft, hp0, hs0⟩
        · simp only [shift_time, hv, if_true, hp, hs, htr, hft,
            bind, Except.bind, throw, throwThe, MonadExceptOf.throw, pure, Except.pure]
        · simp only [shift_time, hv, if_true, hp, hs, htr, hft, hp0, hs0,
            bind, Except.bind, throw, throwThe, MonadExceptOf.throw, pure, Except.pure]
    · rcases hval with hv | ⟨hv, t, ts, hp, hs⟩
      · simp only [shift_time, hv, Bool.false_eq_true, if_false, htr, hlsr, if_true, hft,
          bind, Except.bind, throw, throwThe, MonadExceptOf.throw, pure, Except.pure]
      · simp only [shift_time, hv, if_true, hp, hs, htr, Bool.false_eq_true, if_false,
          hlsr, hft, bind, Except.bind, throw, throwThe, MonadExceptOf.throw, pure,
          Except.pure]
  refine ⟨hst, fun rest => ?_⟩
  have hw : writeLinesAux (some S) [line] = .error .indexError := by
    simp only [writeLinesAux, shiftLine, hkw, if_true, hst, bind, Except.bind]
  exact shift_placefiles_cons_err S [line] rest .indexError
    (processArtifact_uncaught S [line] .indexError hw rfl)

theorem claim_C3_counterexample :
    processArtifact (some 60)
      ["x\n".toList, "Valid: oops\n".toList, "y\n".toList] = .ok [errLine .valueError] ∧
    "y\n".toList ∉ [errLine .valueError] := by
  refine ⟨rfl, by decide⟩

theorem claim_C3_witness :
    processArtifact (some 60) (["x\n".toList] ++ "Valid: oops\n".toList :: ["y\n".toList])
      = .ok [errLine .valueError] ∧
    shift_placefiles (some 60)
      ((["x\n".toList] ++ "Valid: oops\n".toList :: ["y\n".toList]) :: [["z\n".toList]]) =
      ([errLine .valueError] :: (shift_placefiles (some 60) [["z\n".toList]]).1,
        (shift_placefiles (some 60) [["z\n".toList]]).2) := by
  obtain ⟨_, h2, h3⟩ := claim_C3_artifact_faults 60 ["x\n".toList]
    ("Valid: oops\n".toList) ["y\n".toList] [["z\n".toList]]
    (by intro l hl; simp only [List.mem_singleton] at hl; subst hl
        exact ⟨by decide, by decide⟩)
    (by decide) (by rfl)
  exact ⟨h2, h3⟩

theorem claim_C10_counterexample :
    shift_time "TimeRange: 2023-13-07T21:45:00Z 2023-13-07T21:55:00Z\n".toList 60 =
      .error .valueError ∧
    shift_placefiles (some 60)
      [["TimeRange: 2023-13-07T21:45:00Z 2023-13-07T21:55:00Z\n".toList],
        ["x\n".toList]] =
      ([[errLine .valueError], ["x\n".toList]], none) := by
  exact ⟨rfl, rfl⟩

theorem claim_C10_witness :
    shift_time "TimeRange: missing\n".toList 60 = .error .indexError ∧
    shift_placefiles (some 60) [["TimeRange: missing\n".toList], ["z\n".toList]] =
      ([], some .indexError) := by
  obtain ⟨h1, h2⟩ := claim_C10_uncaught ("TimeRange: missing\n".toList) 60
    (Or.inl (by decide)) (Or.inl ⟨by decide, Or.inl (by decide)⟩)
  exact ⟨h1, h2 _⟩

/-! ## Simulation times (C1) -/

/-- C1: for every event start, every duration of at least 10 minutes and
every wall-clock instant, `make_simulation_times` floors the wall clock to
the 15-minute boundary for `playback_end`, sets `playback_start` one event
duration earlier, sets the seconds shift to `playback_start - event_start`,
sets the clock to `playback_start + 600` seconds, and the clock lies between
`playback_start` and `playback_end`. -/
theorem claim_C1_simulation_times (event_start : Int) (event_duration now : Nat)
    (h : 10 ≤ event_duration) :
    (make_simulation_times event_start event_duration now).playback_end =
      ((900 * (now / 900) : Nat) : Int) ∧
    (make_simulation_times event_start event_duration now).playback_start =
      (make_simulation_times event_start event_duration now).playback_end -
        60 * event_duration ∧
    (make_simulation_times event_start event_duration now).simulation_seconds_shift =
      (make_simulation_times event_start event_duration now).playback_start -
        event_start ∧
    (make_simulation_times event_start event_duration now).playback_clock =
      (make_simulation_times event_start event_duration now).playback_start + 600 ∧
    (make_simulation_times event_start event_duration now).playback_start ≤
      (make_simulation_times event_start event_duration now).playback_clock ∧
    (make_simulation_times event_start event_duration now).playback_clock ≤
      (make_simulation_times event_start event_duration now).playback_end := by
  refine ⟨?_, ?_, ?_, ?_, ?_, ?_⟩ <;>
    (dsimp only [make_simulation_times]; try omega)

/-- The clock bound of `claim_C1_simulation_times` at a concrete input: a
30-minute event whose playback window is computed from wall clock
1000000. -/
theorem claim_C1_witness :
    (make_simulation_times 0 30 1000000).playback_clock ≤
      (make_simulation_times 0 30 1000000).playback_end :=
  (claim_C1_simulation_times 0 30 1000000 (by decide)).2.2.2.2.2

/-! ## Playback clock ticks (C2, C9) -/

/-- C2 (amended): on a playback-timer tick the clock advances by
`round(15 * playback_speed)` seconds while the advanced value stays short of
`playback_end`; once it reaches `playback_end` the engine disables the
interval, pauses, reports `Simulation Complete`, and resets the clock to
`playback_start + 600` seconds rather than clamping it to `playback_end`. -/
theorem claim_C2_tick (speed : ℚ) (specs : PlaybackSpecs) :
    (specs.playback_clock + pyRound (15 * speed) < specs.playback_end →
      (manage_clock_ .playback_timer speed specs).playback_clock =
        specs.playback_clock + pyRound (15 * speed) ∧
      (manage_clock_ .playback_timer speed specs).status = "Running") ∧
    (specs.playback_end ≤ specs.playback_clock + pyRound (15 * speed) →
      (manage_clock_ .playback_timer speed specs).status = "Simulation Complete" ∧
      (manage_clock_ .playback_timer speed specs).interval_disabled = true ∧
      (manage_clock_ .playback_timer speed specs).playback_paused = true ∧
      (manage_clock_ .playback_timer speed specs).playback_clock =
        specs.playback_start + 600) := by
  obtain ⟨P, hP⟩ : ∃ P, pyRound (15 * speed) = P := ⟨_, rfl⟩
  rw [hP]
  constructor
  · intro h
    simp only [manage_clock_, hP]
    split_ifs
    exact ⟨rfl, rfl⟩
  · intro h
    simp only [manage_clock_, hP]
    split_ifs with hc
    · exact absurd hc (not_lt.mpr h)
    · exact ⟨rfl, rfl, rfl, rfl⟩

/-- `claim_C2_tick` at a concrete input: a tick at speed 1 from clock 990
with `playback_end = 1000` and `playback_start = 0` completes the simulation
and resets the clock to 600. -/
theorem claim_C2_tick_witness :
    (manage_clock_ .playback_timer 1
        ⟨990, 1000, 0, 1, false, "Running", false, "Pause Playback", "green"⟩).playback_clock =
      600 :=
  ((claim_C2_tick 1
      ⟨990, 1000, 0, 1, false, "Running", false, "Pause Playback", "green"⟩).2
    (by norm_num [pyRound])).2.2.2

/-- C2 counterexample: a tick at speed 1 from clock 990 with
`playback_end = 1000` and `playback_start = 0` reaches the complete state,
but the clock is reset to 600, not clamped to `playback_end = 1000`. -/
theorem claim_C2_counterexample :
    (manage_clock_ .playback_timer 1
        ⟨990, 1000, 0, 1, false, "Running", false, "Pause Playback", "green"⟩).status =
      "Simulation Complete" ∧
    (manage_clock_ .playback_timer 1
        ⟨990, 1000, 0, 1, false, "Running", false, "Pause Playback", "green"⟩).playback_clock ≠
      (1000 : Int) := by
  have hp : pyRound (15 * 1 : ℚ) = 15 := by norm_num [pyRound]
  have hm : manage_clock_ .playback_timer 1
      ⟨990, 1000, 0, 1, false, "Running", false, "Pause Playback", "green"⟩ =
      ⟨600, 1000, 0, 1, true, "Simulation Complete", true, "Restart Simulation",
        "yellow"⟩ := by
    simp only [manage_clock_, hp]
    norm_num
  exact ⟨by rw [hm], by rw [hm]; decide⟩

/-- C9: a speed-store event and a manual time-jump each leave the paused
flag, the tick-interval disabled flag and the status text exactly as they
were stored, so neither resumes a paused engine; the time-jump additionally
sets the clock to the chosen checkpoint. -/
theorem claim_C9_preserves (speed : ℚ) (new_time : Int) (specs : PlaybackSpecs) :
    ((manage_clock_ .playback_speed_store speed specs).playback_paused =
        specs.playback_paused ∧
      (manage_clock_ .playback_speed_store speed specs).interval_disabled =
        specs.interval_disabled ∧
      (manage_clock_ .playback_speed_store speed specs).status = specs.status) ∧
    ((manage_clock_ (.change_time new_time) speed specs).playback_paused =
        specs.playback_paused ∧
      (manage_clock_ (.change_time new_time) speed specs).interval_disabled =
        specs.interval_disabled ∧
      (manage_clock_ (.change_time new_time) speed specs).status = specs.status ∧
      (manage_clock_ (.change_time new_time) speed specs).playback_clock =
        new_time) :=
  ⟨⟨rfl, rfl, rfl⟩, ⟨rfl, rfl, rfl, rfl⟩⟩

/-! ## Status-marker writes (C4, C5, C6) -/

theorem stage_pair_qdr (linksRC : Int) (queryRCs dlRCs : List Int) :
    query_and_download_radars linksRC queryRCs dlRCs = ("cancelled", ["cancelled"]) ∨
    query_and_download_radars linksRC queryRCs dlRCs = ("running", ["running"]) := by
  simp only [query_and_download_radars]
  split_ifs <;> simp

theorem stage_pair_munger (rcs : List Int) :
    munger_radar rcs = ("cancelled", ["cancelled"]) ∨
    munger_radar rcs = ("running", ["running"]) := by
  simp only [munger_radar]
  split_ifs <;> simp

theorem stage_pair_events (rc : Int) :
    generate_events_files rc = ("cancelled", ["cancelled"]) ∨
    generate_events_files rc = ("running", ["running"]) := by
  simp only [generate_events_files]
  split_ifs <;> simp

theorem stage_pair_nse (rc : Int) :
    generate_nse_placefiles rc = ("cancelled", ["cancelled"]) ∨
    generate_nse_placefiles rc = ("running", ["running"]) := by
  simp only [generate_nse_placefiles]
  split_ifs <;> simp

theorem stage_pair_hodo (rcs : List Int) :
    generate_hodographs rcs = ("cancelled", ["cancelled"]) ∨
    generate_hodographs rcs = ("running", ["running"]) := by
  simp only [generate_hodographs]
  split_ifs <;> simp

theorem stageStep_writes (sel : Bool) (r : String × List String) (st : Stage)
    (x : String × List String × List Stage)
    (hr : ∀ s ∈ r.2, s = "running" ∨ s = "cancelled")
    (hx : ∀ s ∈ x.2.1, s = "running" ∨ s = "cancelled") :
    ∀ s ∈ (stageStep sel r st x).2.1, s = "running" ∨ s = "cancelled" := by
  intro s hs
  simp only [stageStep] at hs
  split_ifs at hs
  · rcases List.mem_append.mp hs with h | h
    · exact hx s h
    · exact hr s h
  · exact hx s hs

theorem pair_writes_ok (p : String × List String)
    (hp : p = ("cancelled", ["cancelled"]) ∨ p = ("running", ["running"])) :
    ∀ s ∈ p.2, s = "running" ∨ s = "cancelled" := by
  rcases hp with rfl | rfl <;> intro s hs <;> simp_all

theorem nil_writes_ok (a : String) :
    ∀ s ∈ ((a, ([] : List String)) : String × List String).2,
      s = "running" ∨ s = "cancelled" := by
  intro s hs
  simp at hs

theorem nil3_writes_ok :
    ∀ s ∈ (("running", ([] : List String), ([] : List Stage)) :
        String × List String × List Stage).2.1,
      s = "running" ∨ s = "cancelled" :=
  fun s hs => absurd hs (List.not_mem_nil s)

theorem run_scripts_writes_ok (flags : ScriptsToRun) (res : StageResults) :
    ∀ s ∈ (run_scripts flags res).writes, s = "running" ∨ s = "cancelled" := by
  intro s hs
  simp only [run_scripts] at hs
  split_ifs at hs <;>
    first
      | exact stageStep_writes _ _ _ _
          (pair_writes_ok _ (stage_pair_munger res.mungerRCs))
          (pair_writes_ok _ (stage_pair_qdr res.linksRC res.queryRCs res.dlRCs)) s hs
      | exact stageStep_writes _ _ _ _
          (pair_writes_ok _ (stage_pair_munger res.mungerRCs)) nil3_writes_ok s hs
      | exact stageStep_writes _ _ _ _ (pair_writes_ok _ (stage_pair_hodo res.hodoRCs))
          (stageStep_writes _ _ _ _ (nil_writes_ok _)
            (stageStep_writes _ _ _ _ (pair_writes_ok _ (stage_pair_nse res.nseRC))
              (stageStep_writes _ _ _ _
                (pair_writes_ok _ (stage_pair_events res.eventsRC))
                (stageStep_writes _ _ _ _
                  (pair_writes_ok _ (stage_pair_munger res.mungerRCs))
                  (pair_writes_ok _
                    (stage_pair_qdr res.linksRC res.queryRCs res.dlRCs)))))) s hs
      | exact stageStep_writes _ _ _ _ (pair_writes_ok _ (stage_pair_hodo res.hodoRCs))
          (stageStep_writes _ _ _ _ (nil_writes_ok _)
            (stageStep_writes _ _ _ _ (pair_writes_ok _ (stage_pair_nse res.nseRC))
              (stageStep_writes _ _ _ _
                (pair_writes_ok _ (stage_pair_events res.eventsRC))
                (stageStep_writes _ _ _ _
                  (pair_writes_ok _ (stage_pair_munger res.mungerRCs))
                  nil3_writes_ok)))) s hs

theorem coordinate_writes_ok (flags : ScriptsToRun) (res : StageResults) :
    ∀ s ∈ coordinate_processing_scripts flags res,
      s = "running" ∨ s = "cancelled" ∨ s = "completed" := by
  intro s hs
  have hw := run_scripts_writes_ok flags res s
  simp only [coordinate_processing_scripts] at hs
  split_ifs at hs <;>
    simp only [List.mem_cons, List.mem_append, List.mem_singleton] at hs <;>
    tauto

/-- C4 (amended): every string written to the durable status marker
`script_status.txt` by a modelled operation of the system is one of the five
values `startup`, `running`, `cancelled`, `completed`, `sim launched` (the
launch transition writes `sim launched`, not `launched`). -/
theorem claim_C4_status_writes (s : String) (h : SystemStatusWrite s) :
    s = "startup" ∨ s = "running" ∨ s = "cancelled" ∨ s = "completed" ∨
      s = "sim launched" := by
  rcases h with rfl | rfl | ⟨flags, res, hmem⟩
  · exact Or.inl rfl
  · exact Or.inr (Or.inr (Or.inr (Or.inr rfl)))
  · rcases coordinate_writes_ok flags res s hmem with h | h | h
    · exact Or.inr (Or.inl h)
    · exact Or.inr (Or.inr (Or.inl h))
    · exact Or.inr (Or.inr (Or.inr (Or.inl h)))

/-- C4 counterexample: `initiate_playback` writes `sim launched` to the
status marker, and that string is none of the five values the claim lists
(in particular it is not `launched`). -/
theorem claim_C4_counterexample :
    SystemStatusWrite "sim launched" ∧
    ¬("sim launched" = "startup" ∨ "sim launched" = "running" ∨
      "sim launched" = "cancelled" ∨ "sim launched" = "completed" ∨
      "sim launched" = "launched") :=
  ⟨Or.inr (Or.inl rfl), by decide⟩

/-- `claim_C4_status_writes` at the concrete write `sim launched` of
`initiate_playback`. -/
theorem claim_C4_witness :
    "sim launched" = "startup" ∨ "sim launched" = "running" ∨
      "sim launched" = "cancelled" ∨ "sim launched" = "completed" ∨
      "sim launched" = "sim launched" :=
  claim_C4_status_writes "sim launched" (Or.inr (Or.inl rfl))

/-- C5: when the download stage is selected and one of its external results
carries the SIGTERM returncode (positive or negated), `run_scripts` ends
with status `cancelled`, writes exactly `cancelled` to the status marker,
and executes no stage beyond the download stage — in particular the munger
stage is never invoked. -/
theorem claim_C5_cancel (flags : ScriptsToRun) (res : StageResults)
    (hq : flags.query_and_download_radar = true)
    (hc : ∃ rc ∈ res.dlRCs, isSigterm rc = true) :
    (run_scripts flags res).status = "cancelled" ∧
    (run_scripts flags res).writes = ["cancelled"] ∧
    (run_scripts flags res).executed = [Stage.download] := by
  have h1 : query_and_download_radars res.linksRC res.queryRCs res.dlRCs =
      ("cancelled", ["cancelled"]) := by
    simp only [query_and_download_radars]
    split_ifs with h h' h''
    · rfl
    · rfl
    · rfl
    · exact absurd (List.find?_isSome.mpr hc) h''
  simp [run_scripts, stageStep, h1, hq]

/-- `claim_C5_cancel` at a concrete input: all stages selected, one radar
download returning SIGTERM = 15. -/
theorem claim_C5_witness :
    (run_scripts ⟨true, true, true, true, true⟩
        ⟨0, [0], [15], [0], 0, 0, [0]⟩).status = "cancelled" ∧
    (run_scripts ⟨true, true, true, true, true⟩
        ⟨0, [0], [15], [0], 0, 0, [0]⟩).writes = ["cancelled"] ∧
    (run_scripts ⟨true, true, true, true, true⟩
        ⟨0, [0], [15], [0], 0, 0, [0]⟩).executed = [Stage.download] :=
  claim_C5_cancel ⟨true, true, true, true, true⟩ ⟨0, [0], [15], [0], 0, 0, [0]⟩
    rfl ⟨15, by decide, by decide⟩

/-- C6: with only the placefiles stage selected, `run_scripts` reaches the
call `processing.generate_fast_placefiles(radar_info, configs, sim_times,
lsr_delay)` (app.py line 461), which passes four positional arguments to a
function defined with three parameters (processing.py line 241); the raised
`TypeError` propagates, so the run crashes, the always-on events stage never
executes, and `completed` is never written by the coordinator. -/
theorem claim_C6_typeerror (res : StageResults) :
    (run_scripts ⟨false, false, true, false, false⟩ res).crashed = true ∧
    Stage.events ∉ (run_scripts ⟨false, false, true, false, false⟩ res).executed ∧
    "completed" ∉ coordinate_processing_scripts ⟨false, false, true, false, false⟩
      res := by
  refine ⟨rfl, ?_, ?_⟩ <;> simp [run_scripts, coordinate_processing_scripts, stageStep]

/-! ## Haversine clamp (C8) -/

theorem haversineRaw_le_one (plat plon lat lon : ℝ) :
    haversineRaw plat plon lat lon ≤ 1 := by
  have hd : radiansR (plat - lat) = radiansR plat - radiansR lat := by
    simp only [radiansR]
    ring
  simp only [haversineRaw, hd]
  set A := radiansR lat
  set B := radiansR plat
  set L := radiansR (plon - lon)
  have hcos2 : Real.cos (2 * ((B - A) / 2)) = 2 * Real.cos ((B - A) / 2) ^ 2 - 1 :=
    Real.cos_two_mul _
  have h2 : (2 : ℝ) * ((B - A) / 2) = B - A := by ring
  rw [h2] at hcos2
  have hsub : Real.cos (B - A) = Real.cos B * Real.cos A + Real.sin B * Real.sin A :=
    Real.cos_sub B A
  have hpyth : Real.sin ((B - A) / 2) ^ 2 + Real.cos ((B - A) / 2) ^ 2 = 1 :=
    Real.sin_sq_add_cos_sq _
  have hadd : Real.cos (B + A) = Real.cos B * Real.cos A - Real.sin B * Real.sin A :=
    Real.cos_add B A
  have hle : Real.cos (B + A) ≤ 1 := Real.cos_le_one _
  have hge : -1 ≤ Real.cos (B - A) := Real.neg_one_le_cos _
  have ht1 : Real.sin (L / 2) ^ 2 ≤ 1 := Real.sin_sq_le_one _
  have ht0 : 0 ≤ Real.sin (L / 2) ^ 2 := sq_nonneg _
  have h3 : 0 ≤ 1 - (Real.cos B * Real.cos A - Real.sin B * Real.sin A) := by
    rw [← hadd]
    linarith
  have h4 : 0 ≤ 1 + (Real.cos B * Real.cos A + Real.sin B * Real.sin A) := by
    rw [← hsub]
    linarith
  nlinarith [mul_nonneg ht0 h3, mul_nonneg (sub_nonneg.2 ht1) h4]

/-- C8: the haversine intermediate of `move_point` is clamped with
`_clamp(a, 0, a)` before the square roots are taken, and the clamped value
always lies in `[0, 1]`: neither `sqrt a` nor `sqrt (1 - a)` ever receives a
negative argument, and an intermediate value of exactly 1 is in range, so
the distance computation is well-defined. -/
theorem claim_C8_sqrt_safe (plat plon lat lon : ℝ) :
    0 ≤ haversineClamped plat plon lat lon ∧
      haversineClamped plat plon lat lon ≤ 1 := by
  constructor
  · simp only [haversineClamped, pyClamp, min_self]
    exact le_max_right _ _
  · simp only [haversineClamped, pyClamp, min_self]
    exact max_le (haversineRaw_le_one plat plon lat lon) zero_le_one
